import Mathlib

/-!
Verification development for the cycle-time engine of the atp-producer-jira
repository.  The Python sources under `app/` are shallowly embedded here:

* timestamps are modelled as `Nat` values (seconds on the UTC timeline), the
  result of the `_parse_jira_datetime` normalisation (including the fixed +1h
  shift); an entry whose timestamp failed to parse carries `none`;
* Python dict-based history entries become the structures `ChangeItem` and
  `HistoryEntry`;
* `str.strip` / `str.lower` are embedded as executable ASCII trimming and
  lowering over the underlying character list (the Python code only ever
  compares ASCII status names);
* Python `sorted` with a key is a stable sort; it is embedded as a stable
  insertion sort on the same key, which produces the same list as any stable
  sort;
* durations (`timedelta.total_seconds()` sums) are embedded as `Int` values:
  all arithmetic performed by the code on whole-second inputs is exact.

Every definition mirrors one function of the source files
`app/cycle_time_strategy.py`, `app/simple_cycle_time_strategy.py`,
`app/complex_cycle_time_strategy.py`, `app/cycle_time_calculator.py`;
the doc comment of each definition names the source function.
-/

namespace ATP

/-- ASCII lowering of one character, the effect of Python str.lower on the
ASCII range used by the status vocabulary. -/
def lowerChar (c : Char) : Char :=
  if 65 ≤ c.toNat ∧ c.toNat ≤ 90 then Char.ofNat (c.toNat + 32) else c

/-- Embedding of Python str.lower (ASCII). -/
def lowerStr (s : String) : String := ⟨s.data.map lowerChar⟩

/-- ASCII whitespace test used by the trim embedding. -/
def isWS (c : Char) : Bool := c = ' ' || c = '\t' || c = '\n' || c = '\r'

/-- Embedding of Python str.strip (ASCII whitespace). -/
def trimStr (s : String) : String :=
  ⟨((s.data.dropWhile isWS).reverse.dropWhile isWS).reverse⟩

/-- Embedding of the idiom `(x or "").strip().lower()` applied to an optional
string. -/
def norm_str (s : Option String) : String := lowerStr (trimStr (s.getD ""))

/-- Embedding of the idiom `(x or "").strip()` applied to an optional string. -/
def strip_str (s : Option String) : String := trimStr (s.getD "")

/-- Python truthiness of an `Optional[str]`: `None` and the empty string are
falsy. -/
def optStrTruthy (s : Option String) : Bool := !(s.getD "" == "")

/-- One entry of an `items` list of a Jira changelog history entry.  `fromId`
and `toId` embed the Python keys `from` and `to` (`from` is a Lean keyword). -/
structure ChangeItem where
  field : String
  fromString : Option String
  toString : Option String
  fromId : Option String
  toId : Option String
deriving DecidableEq

/-- One Jira changelog history entry.  `created` holds the timestamp already
normalised by `_parse_jira_datetime` (`none` when parsing failed);
`authorId` embeds `history.get("author", {}).get("accountId")`. -/
structure HistoryEntry where
  created : Option Nat
  authorId : Option String
  items : List ChangeItem
deriving DecidableEq

/-- The configuration held by `CycleTimeStrategy.__init__`: the lowercased
status vocabularies and the QA flag. -/
structure Strategy where
  in_progress_lower : List String
  done_lower : List String
  exclude_lower : List String
  is_qa : Bool
deriving DecidableEq

/-- Embedding of the dataclass `CycleTime` (`app/cycle_time_strategy.py`). -/
structure CycleTime where
  issue_key : String
  in_progress_at : Option Nat
  done_at : Option Nat
  seconds : Option Int
  excluded_seconds : Option Int
  impediment_seconds : Option Int
deriving DecidableEq

/-- Sort key used by every `sorted(histories, key=...)` call: the parsed
timestamp, with unparseable timestamps standing in for `datetime.min`
(smaller than every real timestamp). -/
def keyOf (h : HistoryEntry) : Nat := h.created.getD 0

/-- Stable insertion of an element in front of the first element with a key
not smaller than its own. -/
def insertByKey {α : Type} (key : α → Nat) (x : α) : List α → List α
  | [] => [x]
  | y :: ys => if key y < key x then y :: insertByKey key x ys else x :: y :: ys

/-- Stable sort by a `Nat` key; embeds Python `sorted(..., key=...)`, which is
also stable, so both produce the same list. -/
def stableSortBy {α : Type} (key : α → Nat) (l : List α) : List α :=
  l.foldr (insertByKey key) []

/-- Embedding of `sorted(histories, key=lambda h: parse(h) or datetime.min)`. -/
def sortByCreated (hs : List HistoryEntry) : List HistoryEntry :=
  stableSortBy keyOf hs

namespace CycleTimeStrategy

/-- Embedding of the static method
`CycleTimeStrategy.should_use_complex_strategy`. -/
def should_use_complex_strategy (hs : List HistoryEntry)
    (assignee_account_id : Option String) : Bool :=
  let counts := hs.foldl (fun (ac : Nat × Nat) h =>
    h.items.foldl (fun ac i =>
      if i.field = "assignee" then (ac.1 + 1, ac.2)
      else if i.field = "status" then (ac.1, ac.2 + 1)
      else ac) ac) (0, 0)
  decide (2 < counts.1) || decide (5 < counts.2) || assignee_account_id.isSome

/-- State of the status-tracking fold of `_calculate_excluded_time`. -/
structure ExcState where
  excluded : Int
  current_status : Option String
  status_start_time : Option Nat

/-- Effect of one `items` element on the `_calculate_excluded_time` fold at an
entry whose (in-window) timestamp is `c`. -/
def excludedStep (cfg : Strategy) (c : Nat) (i : ChangeItem) (st : ExcState) :
    ExcState :=
  if i.field = "status" then
    let toS := norm_str i.toString
    let ex1 :=
      if optStrTruthy st.current_status
          && decide (st.current_status.getD "" ∈ cfg.exclude_lower)
          && st.status_start_time.isSome
          && !(decide (toS ∈ cfg.exclude_lower)) then
        st.excluded + ((c : Int) - (st.status_start_time.getD 0 : Int))
      else st.excluded
    { excluded := ex1, current_status := some toS, status_start_time := some c }
  else st

/-- Embedding of `CycleTimeStrategy._calculate_excluded_time`.  Entries are
consumed in the order given (the source does not sort here); entries with an
unparseable timestamp or outside the `[w0, w1]` window are skipped. -/
def calculate_excluded_time (cfg : Strategy) (hs : List HistoryEntry)
    (w0 w1 : Nat) : Int :=
  let fin := hs.foldl (fun st h =>
    match h.created with
    | none => st
    | some c =>
      if c < w0 ∨ w1 < c then st
      else h.items.foldl (fun st i => excludedStep cfg c i st) st)
    ⟨0, none, none⟩
  if optStrTruthy fin.current_status
      && decide (fin.current_status.getD "" ∈ cfg.exclude_lower)
      && fin.status_start_time.isSome then
    fin.excluded + ((w1 : Int) - (fin.status_start_time.getD 0 : Int))
  else fin.excluded

/-- State of the `Flagged` tracking fold of `_calculate_impediment_time`. -/
structure ImpState where
  impediment : Int
  is_impediment : Bool
  impediment_start_time : Option Nat

/-- Effect of one `items` element on the `_calculate_impediment_time` fold. -/
def impedimentStep (c : Nat) (i : ChangeItem) (st : ImpState) : ImpState :=
  if i.field = "Flagged" then
    let toS := strip_str i.toString
    let st1 :=
      if st.is_impediment && st.impediment_start_time.isSome
          && (lowerStr toS == "none" || lowerStr toS == "") then
        { impediment :=
            st.impediment + ((c : Int) - (st.impediment_start_time.getD 0 : Int)),
          is_impediment := false, impediment_start_time := none }
      else st
    if lowerStr toS == "impediment" then
      { st1 with is_impediment := true, impediment_start_time := some c }
    else st1
  else st

/-- Embedding of `CycleTimeStrategy._calculate_impediment_time`. -/
def calculate_impediment_time (hs : List HistoryEntry) (w0 w1 : Nat) : Int :=
  let fin := hs.foldl (fun st h =>
    match h.created with
    | none => st
    | some c =>
      if c < w0 ∨ w1 < c then st
      else h.items.foldl (fun st i => impedimentStep c i st) st)
    ⟨0, false, none⟩
  if fin.is_impediment && fin.impediment_start_time.isSome then
    fin.impediment + ((w1 : Int) - (fin.impediment_start_time.getD 0 : Int))
  else fin.impediment

/-- State of the period-collecting fold of
`_calculate_excluded_impediment_overlap`: both the impediment periods and the
excluded-status periods are tracked in one pass, as in the source. -/
structure OvState where
  impediment_periods : List (Nat × Nat)
  is_impediment : Bool
  impediment_start_time : Option Nat
  excluded_periods : List (Nat × Nat)
  current_status : Option String
  status_start_time : Option Nat

/-- Effect of one `items` element on the overlap fold. -/
def overlapStep (cfg : Strategy) (c : Nat) (i : ChangeItem) (st : OvState) :
    OvState :=
  if i.field = "Flagged" then
    let toS := strip_str i.toString
    let st1 :=
      if st.is_impediment && st.impediment_start_time.isSome
          && (lowerStr toS == "none" || lowerStr toS == "") then
        { st with
          impediment_periods :=
            st.impediment_periods ++ [(st.impediment_start_time.getD 0, c)],
          is_impediment := false, impediment_start_time := none }
      else st
    if lowerStr toS == "impediment" then
      { st1 with is_impediment := true, impediment_start_time := some c }
    else st1
  else if i.field = "status" then
    let toS := norm_str i.toString
    let st1 :=
      if optStrTruthy st.current_status
          && decide (st.current_status.getD "" ∈ cfg.exclude_lower)
          && st.status_start_time.isSome
          && !(decide (toS ∈ cfg.exclude_lower)) then
        { st with
          excluded_periods :=
            st.excluded_periods ++ [(st.status_start_time.getD 0, c)] }
      else st
    { st1 with current_status := some toS, status_start_time := some c }
  else st

/-- Embedding of `CycleTimeStrategy._calculate_excluded_impediment_overlap`. -/
def calculate_excluded_impediment_overlap (cfg : Strategy)
    (hs : List HistoryEntry) (w0 w1 : Nat) : Int :=
  let fin := hs.foldl (fun st h =>
    match h.created with
    | none => st
    | some c =>
      if c < w0 ∨ w1 < c then st
      else h.items.foldl (fun st i => overlapStep cfg c i st) st)
    ⟨[], false, none, [], none, none⟩
  let imp :=
    if fin.is_impediment && fin.impediment_start_time.isSome then
      fin.impediment_periods ++ [(fin.impediment_start_time.getD 0, w1)]
    else fin.impediment_periods
  let exc :=
    if optStrTruthy fin.current_status
        && decide (fin.current_status.getD "" ∈ cfg.exclude_lower)
        && fin.status_start_time.isSome then
      fin.excluded_periods ++ [(fin.status_start_time.getD 0, w1)]
    else fin.excluded_periods
  imp.foldl (fun acc p =>
    exc.foldl (fun acc q =>
      let os : Nat := max p.1 q.1
      let oe : Nat := min p.2 q.2
      if os < oe then acc + ((oe : Int) - (os : Int)) else acc) acc) 0

/-- State of the chronological scan of `_find_qa_start_time` (the method is
verbatim identical in `SimpleCycleTimeStrategy` and
`ComplexCycleTimeStrategy`, so it is embedded once). -/
structure QaState where
  current_status : Option String
  current_assignee : Option String
  qa_assigned_on_in_review : Option Nat

/-- First inner loop of `_find_qa_start_time`: the pass over the status items
of one entry (timestamp `c`, author `author`).  A `some` first component is an
early return of the source function. -/
def qa_status_items (w : String) (c : Nat) (author : Option String) :
    List ChangeItem → QaState → Option (Nat × String) × QaState
  | [], st => (none, st)
  | i :: rest, st =>
    if i.field = "status" then
      let fromS := norm_str i.fromString
      let toS := norm_str i.toString
      if fromS = "backlog" ∧ author = some w then (some (c, toS), st)
      else if fromS = "in review" ∧ toS = "acceptance" ∧
          ((st.current_assignee = some w ∧ author = some w) ∨
           (st.qa_assigned_on_in_review.isSome ∧ author = some w)) then
        (some (c, "acceptance"), st)
      else if toS = "acceptance" ∧ st.current_assignee = some w ∧
          author = some w then
        (some (c, "acceptance"), st)
      else qa_status_items w c author rest { st with current_status := some toS }
    else qa_status_items w c author rest st

/-- Second inner loop of `_find_qa_start_time`: the pass over the assignee
items of one entry.  Note that the source checks only `to_id == worker` here,
without consulting the author of the entry. -/
def qa_assignee_items (w : String) (c : Nat) :
    List ChangeItem → QaState → Option (Nat × String) × QaState
  | [], st => (none, st)
  | i :: rest, st =>
    if i.field = "assignee" then
      let fromId := strip_str i.fromId
      let toId := strip_str i.toId
      if toId = w then
        let st1 := { st with current_assignee := some w }
        if st1.current_status = some "acceptance" then (some (c, "acceptance"), st1)
        else if st1.current_status = some "in review" then
          qa_assignee_items w c rest { st1 with qa_assigned_on_in_review := some c }
        else qa_assignee_items w c rest st1
      else if fromId = w then
        qa_assignee_items w c rest
          { st with current_assignee := if toId = "" then none else some toId,
                    qa_assigned_on_in_review := none }
      else qa_assignee_items w c rest st
    else qa_assignee_items w c rest st

/-- Outer loop of `_find_qa_start_time` over the chronologically sorted
entries. -/
def qa_go (w : String) : List HistoryEntry → QaState → Option (Nat × String)
  | [], _ => none
  | h :: rest, st =>
    match h.created with
    | none => qa_go w rest st
    | some c =>
      match qa_status_items w c h.authorId h.items st with
      | (some r, _) => some r
      | (none, st1) =>
        match qa_assignee_items w c h.items st1 with
        | (some r, _) => some r
        | (none, st2) => qa_go w rest st2

/-- Embedding of `_find_qa_start_time` (verbatim identical in both strategy
classes). -/
def find_qa_start_time (cfg : Strategy) (hs : List HistoryEntry)
    (assignee_account_id : Option String) : Option (Nat × String) :=
  if !cfg.is_qa || !(optStrTruthy assignee_account_id) then none
  else qa_go (assignee_account_id.getD "") (sortByCreated hs) ⟨none, none, none⟩

/-- Loop of `_find_qa_end_time` over the chronologically sorted entries. -/
def qa_end_go (start_status_lower : String) (qa_start : Nat) :
    List HistoryEntry → Option Nat
  | [] => none
  | h :: rest =>
    match h.created with
    | none => qa_end_go start_status_lower qa_start rest
    | some c =>
      if c ≤ qa_start then qa_end_go start_status_lower qa_start rest
      else if h.items.any (fun i =>
          i.field == "status" &&
          norm_str i.fromString == start_status_lower &&
          !(norm_str i.toString == start_status_lower)) then some c
      else qa_end_go start_status_lower qa_start rest

/-- Embedding of `_find_qa_end_time` (verbatim identical in both strategy
classes). -/
def find_qa_end_time (hs : List HistoryEntry) (qa_start : Nat)
    (start_status : String) : Option Nat :=
  qa_end_go (lowerStr start_status) qa_start (sortByCreated hs)

/-- Embedding of `_calculate_with_qa_start` (identical computation in both
strategy classes; the `assignee_account_id` and `assignee_periods` arguments
of the source functions are unused by their bodies and are omitted). -/
def calculate_with_qa_start (cfg : Strategy) (hs : List HistoryEntry)
    (key : String) (qa_start : Nat) (start_status : String) : CycleTime :=
  match find_qa_end_time hs qa_start start_status with
  | none => ⟨key, some qa_start, none, none, none, none⟩
  | some d =>
    let total : Int := (d : Int) - (qa_start : Int)
    let excluded := calculate_excluded_time cfg hs qa_start d
    let impediment := calculate_impediment_time hs qa_start d
    let overlap := calculate_excluded_impediment_overlap cfg hs qa_start d
    ⟨key, some qa_start, some d,
     some (total - excluded - impediment + overlap), some excluded,
     some impediment⟩

/-- Embedding of `_has_reopening` (verbatim identical in both strategy
classes): scans the sorted status events tracking the previous target status;
true as soon as a done-set status is followed by an in-progress-set status. -/
def has_reopening (cfg : Strategy) (hs : List HistoryEntry) : Bool :=
  let fin := (sortByCreated hs).foldl (fun (st : Bool × Option String) h =>
    match h.created with
    | none => st
    | some _ => h.items.foldl (fun st i =>
        if i.field = "status" then
          let toS := norm_str i.toString
          (st.1 || (optStrTruthy st.2 && decide (st.2.getD "" ∈ cfg.done_lower)
                    && decide (toS ∈ cfg.in_progress_lower)),
           some toS)
        else st) st) (false, none)
  fin.1

/-- State of the per-cycle summation loop of `_calculate_with_cycles`
(verbatim identical in both strategy classes). -/
structure CycTotals where
  total_seconds : Int
  total_excluded_seconds : Int
  total_impediment_seconds : Int
  first_in_progress : Option Nat
  last_done : Option Nat

/-- One iteration of the `for cycle_start, cycle_end in cycles` loop of
`_calculate_with_cycles`. -/
def cycleAccum (cfg : Strategy) (hs : List HistoryEntry) (st : CycTotals)
    (cy : Nat × Option Nat) : CycTotals :=
  let st :=
    match st.first_in_progress with
    | none => { st with first_in_progress := some cy.1 }
    | some f =>
      if cy.1 < f then { st with first_in_progress := some cy.1 } else st
  match cy.2 with
  | none => st
  | some ce =>
    let st :=
      match st.last_done with
      | none => { st with last_done := some ce }
      | some l => if l < ce then { st with last_done := some ce } else st
    let cycle_seconds : Int := (ce : Int) - (cy.1 : Int)
    let excluded := calculate_excluded_time cfg hs cy.1 ce
    let impediment := calculate_impediment_time hs cy.1 ce
    let cycle_overlap := calculate_excluded_impediment_overlap cfg hs cy.1 ce
    { st with
      total_seconds :=
        st.total_seconds + (cycle_seconds - excluded - impediment + cycle_overlap),
      total_excluded_seconds := st.total_excluded_seconds + excluded,
      total_impediment_seconds := st.total_impediment_seconds + impediment }

end CycleTimeStrategy

namespace SimpleCycleTimeStrategy

open CycleTimeStrategy

/-- Embedding of `SimpleCycleTimeStrategy._find_first_in_progress`: the
earliest transition into an in-progress status (no sorting; a running
minimum over the entries in input order). -/
def find_first_in_progress (cfg : Strategy) (hs : List HistoryEntry) :
    Option Nat :=
  hs.foldl (fun earliest h =>
    match h.created with
    | none => earliest
    | some c => h.items.foldl (fun earliest i =>
        if i.field = "status" ∧ norm_str i.toString ∈ cfg.in_progress_lower then
          match earliest with
          | none => some c
          | some e => if c < e then some c else some e
        else earliest) earliest) none

/-- Embedding of `SimpleCycleTimeStrategy._find_first_done`: the earliest
transition into a done status strictly after `in_progress_at`. -/
def find_first_done (cfg : Strategy) (hs : List HistoryEntry)
    (in_progress_at : Nat) : Option Nat :=
  hs.foldl (fun earliest h =>
    match h.created with
    | none => earliest
    | some c =>
      if c ≤ in_progress_at then earliest
      else h.items.foldl (fun earliest i =>
        if i.field = "status" ∧ norm_str i.toString ∈ cfg.done_lower then
          match earliest with
          | none => some c
          | some e => if c < e then some c else some e
        else earliest) earliest) none

/-- One status item of `SimpleCycleTimeStrategy._find_all_cycles`: open a
cycle on an in-progress target with no cycle open, close it on a done target
with a cycle open. -/
def cyclesItemStep (cfg : Strategy) (c : Nat) (i : ChangeItem)
    (st : List (Nat × Option Nat) × Option Nat) :
    List (Nat × Option Nat) × Option Nat :=
  if i.field = "status" then
    let toS := norm_str i.toString
    if toS ∈ cfg.in_progress_lower ∧ st.2 = none then (st.1, some c)
    else if toS ∈ cfg.done_lower ∧ st.2.isSome then
      (st.1 ++ [(st.2.getD 0, some c)], none)
    else st
  else st

/-- Embedding of `SimpleCycleTimeStrategy._find_all_cycles`. -/
def find_all_cycles (cfg : Strategy) (hs : List HistoryEntry) :
    List (Nat × Option Nat) :=
  let fin := (sortByCreated hs).foldl (fun st h =>
    match h.created with
    | none => st
    | some c => h.items.foldl (fun st i => cyclesItemStep cfg c i st) st)
    ([], none)
  match fin.2 with
  | some s => fin.1 ++ [(s, none)]
  | none => fin.1

/-- Embedding of `SimpleCycleTimeStrategy._calculate_with_cycles`. -/
def calculate_with_cycles (cfg : Strategy) (hs : List HistoryEntry)
    (key : String) : CycleTime :=
  let cycles := find_all_cycles cfg hs
  if cycles.isEmpty then ⟨key, none, none, none, none, none⟩
  else
    let t := cycles.foldl (cycleAccum cfg hs) ⟨0, 0, 0, none, none⟩
    match t.last_done with
    | none => ⟨key, t.first_in_progress, none, none, none, none⟩
    | some d =>
      ⟨key, t.first_in_progress, some d, some t.total_seconds,
       some t.total_excluded_seconds, some t.total_impediment_seconds⟩

/-- Embedding of `SimpleCycleTimeStrategy._calculate_first_to_last`. -/
def calculate_first_to_last (cfg : Strategy) (hs : List HistoryEntry)
    (key : String) : CycleTime :=
  match find_first_in_progress cfg hs with
  | none => ⟨key, none, none, none, none, none⟩
  | some t =>
    match find_first_done cfg hs t with
    | none => ⟨key, some t, none, none, none, none⟩
    | some d =>
      let total : Int := (d : Int) - (t : Int)
      let excluded := calculate_excluded_time cfg hs t d
      let impediment := calculate_impediment_time hs t d
      let overlap := calculate_excluded_impediment_overlap cfg hs t d
      ⟨key, some t, some d, some (total - excluded - impediment + overlap),
       some excluded, some impediment⟩

/-- Embedding of `SimpleCycleTimeStrategy.calculate`. -/
def calculate (cfg : Strategy) (hs : List HistoryEntry) (key : String)
    (assignee_account_id : Option String) : CycleTime :=
  match (if cfg.is_qa && optStrTruthy assignee_account_id then
           find_qa_start_time cfg hs assignee_account_id
         else none) with
  | some (qa_start, start_status) =>
    calculate_with_qa_start cfg hs key qa_start start_status
  | none =>
    if has_reopening cfg hs then calculate_with_cycles cfg hs key
    else calculate_first_to_last cfg hs key

end SimpleCycleTimeStrategy

/-- UTC calendar day of an instant, embedding `datetime.date()` of the
UTC-normalised timestamps compared in `_is_in_assignee_period`. -/
def dateOf (t : Nat) : Nat := t / 86400

namespace ComplexCycleTimeStrategy

open CycleTimeStrategy

/-- State of the single pass of `_get_assignee_periods`. -/
structure APState where
  periods : List (Nat × Option Nat)
  current_assignee : Option String
  assignment_start : Option Nat

/-- One assignee item of `_get_assignee_periods` at timestamp `c`. -/
def assigneeItemStep (w : String) (c : Nat) (i : ChangeItem) (st : APState) :
    APState :=
  if i.field = "assignee" then
    let toId := strip_str i.toId
    if st.current_assignee = some w ∧ toId ≠ w then
      { periods := st.periods ++
          (match st.assignment_start with
           | some s => [(s, some c)]
           | none => []),
        current_assignee := if toId = "" then none else some toId,
        assignment_start := none }
    else if toId = w then
      { st with current_assignee := some w, assignment_start := some c }
    else st
  else st

/-- Embedding of `ComplexCycleTimeStrategy._get_assignee_periods`. -/
def get_assignee_periods (hs : List HistoryEntry) (w : String) :
    List (Nat × Option Nat) :=
  let fin := (sortByCreated hs).foldl (fun st h =>
    match h.created with
    | none => st
    | some c => h.items.foldl (fun st i => assigneeItemStep w c i st) st)
    ⟨[], none, none⟩
  if fin.current_assignee = some w ∧ fin.assignment_start.isSome then
    fin.periods ++ [(fin.assignment_start.getD 0, none)]
  else fin.periods

/-- Embedding of `ComplexCycleTimeStrategy._is_in_assignee_period`, with the
four-hour same-calendar-day grace window after a closed period end. -/
def is_in_assignee_period (timestamp : Nat)
    (assignee_periods : Option (List (Nat × Option Nat))) : Bool :=
  match assignee_periods with
  | none => true
  | some ps => ps.any (fun p =>
      match p.2 with
      | none => decide (p.1 ≤ timestamp)
      | some e =>
        decide (p.1 ≤ timestamp ∧ timestamp ≤ e) ||
        (decide (dateOf timestamp = dateOf e) && decide (e < timestamp)
         && decide (timestamp - e ≤ 14400)))

/-- Python truthiness of the `Optional[List]` value `assignee_periods`:
both `None` and the empty list are falsy. -/
def periodsTruthy (pOpt : Option (List (Nat × Option Nat))) : Bool :=
  match pOpt with
  | none => false
  | some ps => !ps.isEmpty

/-- The hard-coded `non_work_states` set of `_find_first_in_progress`. -/
def non_work_states : List String :=
  ["on hold", "waiting", "paused", "stopped", "cancelled"]

/-- Scan of the items of one look-ahead entry in `_check_leads_to_non_work`:
`some true` when a non-work target is seen first, `some false` when another
in-progress target is seen first, `none` when the entry is not decisive. -/
def leadsScanItems (cfg : Strategy) : List ChangeItem → Option Bool
  | [] => none
  | i :: rest =>
    if i.field = "status" then
      let toS := norm_str i.toString
      if toS ∈ non_work_states then some true
      else if toS ∈ cfg.in_progress_lower then some false
      else leadsScanItems cfg rest
    else leadsScanItems cfg rest

/-- Embedding of `ComplexCycleTimeStrategy._check_leads_to_non_work`,
applied to the entries after the one holding the work transition
(`histories[start_index + 1:]`, in input order). -/
def check_leads_to_non_work (cfg : Strategy) : List HistoryEntry → Bool
  | [] => false
  | h :: rest =>
    match h.created with
    | none => check_leads_to_non_work cfg rest
    | some _ =>
      match leadsScanItems cfg h.items with
      | some b => b
      | none => check_leads_to_non_work cfg rest

/-- One element of the `work_transitions` list of `_find_first_in_progress`. -/
structure WorkTransition where
  timestamp : Nat
  status : String
  from_status : String
  leads_to_non_work : Bool

/-- Work transitions contributed by the items of one entry (timestamp `c`;
`rest` holds the entries after that entry, scanned by the look-ahead). -/
def workTransitionsOfItems (cfg : Strategy) (c : Nat)
    (rest : List HistoryEntry) : List ChangeItem → List WorkTransition
  | [] => []
  | i :: is =>
    (if i.field = "status" then
       let toS := norm_str i.toString
       let fromS := norm_str i.fromString
       if toS ∈ cfg.in_progress_lower ∧ ¬ (toS ∈ non_work_states) then
         [{ timestamp := c, status := toS, from_status := fromS,
            leads_to_non_work := check_leads_to_non_work cfg rest }]
       else []
     else []) ++ workTransitionsOfItems cfg c rest is

/-- The `work_transitions` collection loop of `_find_first_in_progress`
(entries in input order, no sorting). -/
def collect_work_transitions (cfg : Strategy) :
    List HistoryEntry → List WorkTransition
  | [] => []
  | h :: rest =>
    (match h.created with
     | none => []
     | some c => workTransitionsOfItems cfg c rest h.items) ++
    collect_work_transitions cfg rest

/-- Timestamp of the transition found by
`min(valid_transitions, key=lambda x: x[timestamp])`; `none` for the empty
list. -/
def minTimes (l : List WorkTransition) : Option Nat :=
  match l with
  | [] => none
  | x :: xs =>
    some (xs.foldl (fun a t => if t.timestamp < a then t.timestamp else a)
      x.timestamp)

/-- Value of `min(start for start, _ in assignee_periods)` (0 for the empty
list, which the callers never pass). -/
def minStart (ps : List (Nat × Option Nat)) : Nat :=
  match ps with
  | [] => 0
  | p :: rest => rest.foldl (fun a q => if q.1 < a then q.1 else a) p.1

/-- Loop of `_get_status_at_time` over the sorted entries; stops (Python
`break`) at the first entry after `timestamp`. -/
def statusAtGo (timestamp : Nat) :
    List HistoryEntry → Option String → Option String
  | [], cs => cs
  | h :: rest, cs =>
    match h.created with
    | none => statusAtGo timestamp rest cs
    | some c =>
      if c ≤ timestamp then
        statusAtGo timestamp rest
          (h.items.foldl (fun cs i =>
            if i.field = "status" then some (norm_str i.toString) else cs) cs)
      else cs

/-- Embedding of `ComplexCycleTimeStrategy._get_status_at_time`. -/
def get_status_at_time (hs : List HistoryEntry) (timestamp : Nat) :
    Option String :=
  statusAtGo timestamp (sortByCreated hs) none

/-- Loop of `_get_first_assignment_in_progress` over the sorted entries
(state: current status and the assignee set strictly before the first
assignment time); stops at the first entry after `first_assignment_time`. -/
def firstAssignGo (first_assignment_time : Nat) :
    List HistoryEntry → Option String × Option String →
    Option String × Option String
  | [], st => st
  | h :: rest, st =>
    match h.created with
    | none => firstAssignGo first_assignment_time rest st
    | some c =>
      if c ≤ first_assignment_time then
        firstAssignGo first_assignment_time rest
          (h.items.foldl (fun st i =>
            if i.field = "status" then (some (norm_str i.toString), st.2)
            else if i.field = "assignee" then
              let toId := strip_str i.toId
              if c < first_assignment_time then
                (st.1, if toId = "" then none else some toId)
              else st
            else st) st)
      else st

/-- Embedding of `ComplexCycleTimeStrategy._get_first_assignment_in_progress`:
the first assignment time, provided the issue was in progress then and a
previous assignee existed (a hand-off). -/
def get_first_assignment_in_progress (cfg : Strategy)
    (hs : List HistoryEntry) (assignee_periods : List (Nat × Option Nat)) :
    Option Nat :=
  if assignee_periods.isEmpty then none
  else
    let fat := minStart assignee_periods
    let fin := firstAssignGo fat (sortByCreated hs) (none, none)
    if optStrTruthy fin.1 && decide (fin.1.getD "" ∈ cfg.in_progress_lower)
        && optStrTruthy fin.2 then
      some fat
    else none

/-- Final loop of `_find_first_in_progress`: the first transition (in sorted
order) whose timestamp lies in an assignee period. -/
def firstInPeriod (pOpt : Option (List (Nat × Option Nat))) :
    List WorkTransition → Option Nat
  | [] => none
  | t :: ts =>
    if is_in_assignee_period t.timestamp pOpt then some t.timestamp
    else firstInPeriod pOpt ts

/-- Embedding of `ComplexCycleTimeStrategy._find_first_in_progress`. -/
def find_first_in_progress (cfg : Strategy) (hs : List HistoryEntry)
    (assignee_periods : Option (List (Nat × Option Nat))) : Option Nat :=
  let wts := collect_work_transitions cfg hs
  let valid0 := wts.filter (fun t => !t.leads_to_non_work)
  let valid := if valid0.isEmpty then wts else valid0
  match minTimes valid with
  | none =>
    if periodsTruthy assignee_periods then
      get_first_assignment_in_progress cfg hs (assignee_periods.getD [])
    else none
  | some first =>
    if !(periodsTruthy assignee_periods) then some first
    else if is_in_assignee_period first assignee_periods then some first
    else
      match get_first_assignment_in_progress cfg hs
          (assignee_periods.getD []) with
      | some fa => some fa
      | none =>
        let fps := minStart (assignee_periods.getD [])
        let cs := get_status_at_time hs fps
        if optStrTruthy cs && decide (cs.getD "" ∈ cfg.in_progress_lower) then
          some first
        else
          firstInPeriod assignee_periods
            (stableSortBy (fun t => t.timestamp) valid)

/-- Embedding of `ComplexCycleTimeStrategy._check_status_completion`:
whether the entry holds a status item whose target is in the done set (the
source returns the entry timestamp, determined by the caller). -/
def check_status_completion (cfg : Strategy) (h : HistoryEntry) : Bool :=
  h.items.any (fun i =>
    i.field == "status" &&
    decide (lowerStr (strip_str i.toString) ∈ cfg.done_lower))

/-- Embedding of `ComplexCycleTimeStrategy._check_resolution_completion`:
whether the entry holds a resolution item that counts as a completion; a
resolution of Won\x27t Do counts only when no worker filter is active or the
entry author is the filtered worker. -/
def check_resolution_completion (h : HistoryEntry)
    (assignee_account_id : Option String) : Bool :=
  h.items.any (fun i =>
    i.field == "resolution" &&
    (let toS := strip_str i.toString
     if lowerStr toS = "won\x27t do" ∨ lowerStr toS = "wont do" then
       if optStrTruthy assignee_account_id then
         decide (h.authorId = assignee_account_id)
       else true
     else !(toS == "") && !(lowerStr toS == "none")))

/-- Collection loop of `_find_first_completion`: the lists
`status_completions` and `resolution_completions` (entries in input order,
restricted to timestamps after the start and inside the assignee periods). -/
def completion_lists (cfg : Strategy) (in_progress_at : Nat)
    (assignee_account_id : Option String)
    (pOpt : Option (List (Nat × Option Nat))) :
    List HistoryEntry → List Nat × List Nat
  | [] => ([], [])
  | h :: rest =>
    let tail := completion_lists cfg in_progress_at assignee_account_id pOpt rest
    match h.created with
    | none => tail
    | some c =>
      if c ≤ in_progress_at then tail
      else if !(is_in_assignee_period c pOpt) then tail
      else
        ((if check_status_completion cfg h then [c] else []) ++ tail.1,
         (if check_resolution_completion h assignee_account_id then [c]
          else []) ++ tail.2)

/-- Value of Python `min` on a list of timestamps; `none` for the empty
list. -/
def listMin : List Nat → Option Nat
  | [] => none
  | x :: xs => some (xs.foldl min x)

/-- Embedding of `ComplexCycleTimeStrategy._find_first_completion`:
status completions take priority over resolution completions. -/
def find_first_completion (cfg : Strategy) (hs : List HistoryEntry)
    (in_progress_at : Nat) (assignee_account_id : Option String)
    (pOpt : Option (List (Nat × Option Nat))) : Option Nat :=
  let lists := completion_lists cfg in_progress_at assignee_account_id pOpt hs
  match listMin lists.1 with
  | some d => some d
  | none => listMin lists.2

/-- Embedding of `ComplexCycleTimeStrategy._is_author_of_transitions`. -/
def is_author_of_transitions (cfg : Strategy) (hs : List HistoryEntry)
    (assignee_account_id : String) : Bool :=
  hs.any (fun h =>
    decide (h.authorId = some assignee_account_id) &&
    h.items.any (fun i =>
      i.field == "status" &&
      (let toS := norm_str i.toString
       decide (toS ∈ cfg.in_progress_lower) ||
       decide (toS ∈ cfg.done_lower))))

/-- One status item of `ComplexCycleTimeStrategy._find_all_cycles`: as the
simple variant, but transitions outside the assignee periods are
discarded. -/
def cyclesItemStep (cfg : Strategy)
    (pOpt : Option (List (Nat × Option Nat))) (c : Nat) (i : ChangeItem)
    (st : List (Nat × Option Nat) × Option Nat) :
    List (Nat × Option Nat) × Option Nat :=
  if i.field = "status" then
    let toS := norm_str i.toString
    if toS ∈ cfg.in_progress_lower ∧ st.2 = none then
      if is_in_assignee_period c pOpt then (st.1, some c) else st
    else if toS ∈ cfg.done_lower ∧ st.2.isSome then
      if is_in_assignee_period c pOpt then (st.1 ++ [(st.2.getD 0, some c)], none)
      else st
    else st
  else st

/-- Embedding of `ComplexCycleTimeStrategy._find_all_cycles` (the
`assignee_account_id` argument of the source is unused by its body). -/
def find_all_cycles (cfg : Strategy) (hs : List HistoryEntry)
    (pOpt : Option (List (Nat × Option Nat))) : List (Nat × Option Nat) :=
  let fin := (sortByCreated hs).foldl (fun st h =>
    match h.created with
    | none => st
    | some c => h.items.foldl (fun st i => cyclesItemStep cfg pOpt c i st) st)
    ([], none)
  match fin.2 with
  | some s => fin.1 ++ [(s, none)]
  | none => fin.1

/-- Embedding of `ComplexCycleTimeStrategy._calculate_with_cycles`. -/
def calculate_with_cycles (cfg : Strategy) (hs : List HistoryEntry)
    (key : String) (pOpt : Option (List (Nat × Option Nat))) : CycleTime :=
  let cycles := find_all_cycles cfg hs pOpt
  if cycles.isEmpty then ⟨key, none, none, none, none, none⟩
  else
    let t := cycles.foldl (cycleAccum cfg hs) ⟨0, 0, 0, none, none⟩
    match t.last_done with
    | none => ⟨key, t.first_in_progress, none, none, none, none⟩
    | some d =>
      ⟨key, t.first_in_progress, some d, some t.total_seconds,
       some t.total_excluded_seconds, some t.total_impediment_seconds⟩

/-- Embedding of `ComplexCycleTimeStrategy._calculate_first_to_last`. -/
def calculate_first_to_last (cfg : Strategy) (hs : List HistoryEntry)
    (key : String) (assignee_account_id : Option String)
    (pOpt : Option (List (Nat × Option Nat))) : CycleTime :=
  match find_first_in_progress cfg hs pOpt with
  | none => ⟨key, none, none, none, none, none⟩
  | some t =>
    match find_first_completion cfg hs t assignee_account_id pOpt with
    | none => ⟨key, some t, none, none, none, none⟩
    | some d =>
      let total : Int := (d : Int) - (t : Int)
      let excluded := calculate_excluded_time cfg hs t d
      let impediment := calculate_impediment_time hs t d
      let overlap := calculate_excluded_impediment_overlap cfg hs t d
      ⟨key, some t, some d, some (total - excluded - impediment + overlap),
       some excluded, some impediment⟩

/-- Common tail of `ComplexCycleTimeStrategy.calculate` after the assignee
periods are resolved: reopening detection followed by the matching
algorithm. -/
def dispatch (cfg : Strategy) (hs : List HistoryEntry) (key : String)
    (assignee_account_id : Option String)
    (pOpt : Option (List (Nat × Option Nat))) : CycleTime :=
  if has_reopening cfg hs then calculate_with_cycles cfg hs key pOpt
  else calculate_first_to_last cfg hs key assignee_account_id pOpt

/-- Embedding of `ComplexCycleTimeStrategy.calculate`. -/
def calculate (cfg : Strategy) (hs : List HistoryEntry) (key : String)
    (assignee_account_id : Option String) : CycleTime :=
  match (if cfg.is_qa && optStrTruthy assignee_account_id then
           find_qa_start_time cfg hs assignee_account_id
         else none) with
  | some (qa_start, start_status) =>
    calculate_with_qa_start cfg hs key qa_start start_status
  | none =>
    if optStrTruthy assignee_account_id then
      let ps := get_assignee_periods hs (assignee_account_id.getD "")
      if ps.isEmpty then
        if is_author_of_transitions cfg hs (assignee_account_id.getD "") then
          dispatch cfg hs key assignee_account_id none
        else ⟨key, none, none, none, none, none⟩
      else dispatch cfg hs key assignee_account_id (some ps)
    else dispatch cfg hs key assignee_account_id none

end ComplexCycleTimeStrategy

namespace CycleTimeCalculator

/-- Embedding of one item of `CycleTimeCalculator.calculate_cycle_times`:
`_select_strategy` via `should_use_complex_strategy`, then the selected
strategy calculation. -/
def calculate_cycle_time (cfg : Strategy) (hs : List HistoryEntry)
    (key : String) (assignee_account_id : Option String) : CycleTime :=
  if CycleTimeStrategy.should_use_complex_strategy hs assignee_account_id then
    ComplexCycleTimeStrategy.calculate cfg hs key assignee_account_id
  else SimpleCycleTimeStrategy.calculate cfg hs key assignee_account_id

end CycleTimeCalculator

/-! Concrete fixtures used by the counterexamples and witnesses below, and
small helper definitions used only to state and prove the theorems. -/

/-- Fixture: a history entry holding a single status transition. -/
def mkStatus (t : Nat) (fromS toS : String) : HistoryEntry :=
  ⟨some t, none, [⟨"status", some fromS, some toS, none, none⟩]⟩

/-- Fixture vocabulary: in-progress `dev`, done `done`, excluded `acc`,
non-QA. -/
def exCfg : Strategy := ⟨["dev"], ["done"], ["acc"], false⟩

/-- Fixture history in chronological order: dev at 0h, acc at 1h, acc at 2h,
dev at 4h, done at 5h. -/
def histChrono : List HistoryEntry :=
  [mkStatus 0 "backlog" "dev", mkStatus 3600 "dev" "acc",
   mkStatus 7200 "dev" "acc", mkStatus 14400 "acc" "dev",
   mkStatus 18000 "acc" "done"]

/-- The same five entries with the 4h and 2h entries exchanged: a permutation
of `histChrono`. -/
def histPerm : List HistoryEntry :=
  [mkStatus 0 "backlog" "dev", mkStatus 3600 "dev" "acc",
   mkStatus 14400 "acc" "dev", mkStatus 7200 "dev" "acc",
   mkStatus 18000 "acc" "done"]

/-- Fixture history with an On Hold interlude and no reopening: dev at 0h,
On Hold at 1h, dev at 2h, done at 3h. -/
def histOnHold : List HistoryEntry :=
  [mkStatus 0 "backlog" "dev", mkStatus 3600 "dev" "On Hold",
   mkStatus 7200 "On Hold" "dev", mkStatus 10800 "dev" "done"]

/-- Fixture history with a resolution event and no done transition: dev at
0h, resolution set to Fixed at 1h. -/
def histResolution : List HistoryEntry :=
  [mkStatus 0 "backlog" "dev",
   ⟨some 3600, none, [⟨"resolution", none, some "Fixed", none, none⟩]⟩]

/-- Fixture QA vocabulary (`is_qa = true`). -/
def qaCfg : Strategy := ⟨["in development"], ["done"], ["acceptance"], true⟩

/-- Fixture history: worker `q` moves the issue out of Backlog into
Acceptance at 1h. -/
def histQaBacklog : List HistoryEntry :=
  [⟨some 3600, some "q",
    [⟨"status", some "backlog", some "acceptance", none, none⟩]⟩]

/-- Fixture history: at 1h someone (author `alice`) moves the issue to
Acceptance, and at 2h a third party (author `boss`) assigns worker `qa`. -/
def histAssignedByBoss : List HistoryEntry :=
  [⟨some 3600, some "alice",
    [⟨"status", some "todo", some "Acceptance", none, none⟩]⟩,
   ⟨some 7200, some "boss",
    [⟨"assignee", none, none, none, some "qa"⟩]⟩]

/-- Fixture history: worker `qa` moves the issue from Backlog to a status
`foo` outside every vocabulary set, and is never assigned. -/
def histAuthoredFoo : List HistoryEntry :=
  [⟨some 3600, some "qa",
    [⟨"status", some "backlog", some "foo", none, none⟩]⟩]

/-- Fixture two-event linear history: dev at 0h, done at 1h. -/
def histLinear : List HistoryEntry :=
  [mkStatus 0 "backlog" "dev", mkStatus 3600 "dev" "done"]

/-- Minimum of two optional timestamps, the accumulator algebra of the
running-minimum folds of the source (used only in proofs). -/
def omin : Option Nat → Option Nat → Option Nat
  | none, b => b
  | some a, none => some a
  | some a, some b => some (min a b)

/-- Timestamps of all transitions into an in-progress status, in input
order (used only to relate the two `_find_first_in_progress` variants). -/
def ipTimes (cfg : Strategy) : List HistoryEntry → List Nat
  | [] => []
  | h :: rest =>
    (match h.created with
     | none => []
     | some c => h.items.foldr (fun i acc =>
         if i.field = "status" ∧ norm_str i.toString ∈ cfg.in_progress_lower
         then c :: acc else acc) []) ++ ipTimes cfg rest

/-! General-purpose lemmas about the fold and sort combinators of the
embedding. -/

theorem foldl_preserve {α σ : Type} (P : σ → Prop) (f : σ → α → σ) :
    ∀ (l : List α) (s : σ), P s → (∀ s a, a ∈ l → P s → P (f s a)) →
    P (l.foldl f s) := by
  intro l
  induction l with
  | nil => intro s h0 _; exact h0
  | cons x xs ih =>
    intro s h0 hstep
    exact ih (f s x) (hstep s x (by simp) h0)
      (fun s a ha hp => hstep s a (by simp [ha]) hp)

theorem mem_insertByKey {α : Type} (key : α → Nat) (x y : α) :
    ∀ l : List α, y ∈ insertByKey key x l ↔ y = x ∨ y ∈ l := by
  intro l
  induction l with
  | nil => simp [insertByKey]
  | cons z zs ih =>
    by_cases h : key z < key x
    · simp only [insertByKey, if_pos h, List.mem_cons, ih]
      tauto
    · simp only [insertByKey, if_neg h, List.mem_cons]

theorem pairwise_insertByKey {α : Type} (key : α → Nat) (x : α) :
    ∀ l : List α, l.Pairwise (fun a b => key a ≤ key b) →
    (insertByKey key x l).Pairwise (fun a b => key a ≤ key b) := by
  intro l
  induction l with
  | nil => intro _; simp [insertByKey]
  | cons z zs ih =>
    intro h
    rw [List.pairwise_cons] at h
    by_cases hlt : key z < key x
    · rw [insertByKey, if_pos hlt]
      refine List.Pairwise.cons ?_ (ih h.2)
      intro y hy
      rcases (mem_insertByKey key x y zs).mp hy with rfl | hy
      · omega
      · exact h.1 y hy
    · rw [insertByKey, if_neg hlt]
      refine List.Pairwise.cons ?_ (List.Pairwise.cons h.1 h.2)
      intro y hy
      rcases List.mem_cons.mp hy with rfl | hy
      · omega
      · have := h.1 y hy
        omega

theorem pairwise_stableSortBy {α : Type} (key : α → Nat) (l : List α) :
    (stableSortBy key l).Pairwise (fun a b => key a ≤ key b) := by
  induction l with
  | nil => simp [stableSortBy]
  | cons x xs ih => exact pairwise_insertByKey key x _ ih

theorem pairwise_sortByCreated (hs : List HistoryEntry) :
    (sortByCreated hs).Pairwise (fun a b => keyOf a ≤ keyOf b) :=
  pairwise_stableSortBy keyOf hs

theorem foldl_min_comm : ∀ (l : List Nat) (a b : Nat),
    l.foldl min (min a b) = min a (l.foldl min b) := by
  intro l
  induction l with
  | nil => intro a b; rfl
  | cons z zs ih =>
    intro a b
    simp only [List.foldl_cons]
    rw [min_assoc, ih]

theorem listMin_cons (x : Nat) (l : List Nat) :
    ComplexCycleTimeStrategy.listMin (x :: l) =
      omin (some x) (ComplexCycleTimeStrategy.listMin l) := by
  cases l with
  | nil => rfl
  | cons y ys =>
    simp only [ComplexCycleTimeStrategy.listMin, omin, List.foldl_cons]
    rw [foldl_min_comm]

theorem listMin_append (l₁ l₂ : List Nat) :
    ComplexCycleTimeStrategy.listMin (l₁ ++ l₂) =
      omin (ComplexCycleTimeStrategy.listMin l₁)
        (ComplexCycleTimeStrategy.listMin l₂) := by
  induction l₁ with
  | nil => simp [ComplexCycleTimeStrategy.listMin, omin]
  | cons x xs ih =>
    rw [List.cons_append, listMin_cons, ih, listMin_cons]
    cases ComplexCycleTimeStrategy.listMin xs with
    | none => rfl
    | some a =>
      cases ComplexCycleTimeStrategy.listMin l₂ with
      | none => rfl
      | some b => simp [omin, min_assoc]

theorem listMin_mem : ∀ (l : List Nat) (d : Nat),
    ComplexCycleTimeStrategy.listMin l = some d → d ∈ l := by
  intro l
  induction l with
  | nil => intro d h; cases h
  | cons x xs ih =>
    intro d h
    rw [listMin_cons] at h
    cases hxs : ComplexCycleTimeStrategy.listMin xs with
    | none => rw [hxs] at h; simp [omin] at h; simp [h]
    | some a =>
      rw [hxs] at h
      simp only [omin, Option.some_inj] at h
      rcases min_cases x a with ⟨hm, _⟩ | ⟨hm, _⟩
      · rw [hm] at h; simp [h]
      · rw [hm] at h
        subst h
        exact List.mem_cons_of_mem x (ih a hxs)

/-! Lemmas stating that every completion timestamp found by the engine lies
strictly after the given start of work. -/

theorem find_first_done_gt (cfg : Strategy) (hs : List HistoryEntry)
    (t : Nat) :
    ∀ d, SimpleCycleTimeStrategy.find_first_done cfg hs t = some d → t < d := by
  unfold SimpleCycleTimeStrategy.find_first_done
  refine foldl_preserve (fun acc => ∀ d, acc = some d → t < d) _ hs none
    (by simp) ?_
  intro s h _ hp
  cases hc : h.created with
  | none => simpa [hc] using hp
  | some c =>
    simp only [hc]
    by_cases hle : c ≤ t
    · simpa [hle] using hp
    · simp only [if_neg hle]
      refine foldl_preserve (fun acc => ∀ d, acc = some d → t < d) _ h.items s
        hp ?_
      intro s' i _ hp' d hd
      by_cases hcond :
          i.field = "status" ∧ norm_str i.toString ∈ cfg.done_lower
      · rw [if_pos hcond] at hd
        cases s' with
        | none => dsimp only at hd; cases hd; omega
        | some e =>
          dsimp only at hd
          by_cases hce : c < e
          · rw [if_pos hce] at hd; cases hd; omega
          · rw [if_neg hce] at hd; exact hp' d hd
      · rw [if_neg hcond] at hd; exact hp' d hd

theorem qa_end_go_gt (ss : String) (t : Nat) :
    ∀ (l : List HistoryEntry) (d : Nat),
    CycleTimeStrategy.qa_end_go ss t l = some d → t < d := by
  intro l
  induction l with
  | nil => intro d h; cases h
  | cons h rest ih =>
    intro d hd
    unfold CycleTimeStrategy.qa_end_go at hd
    cases hc : h.created with
    | none => rw [hc] at hd; exact ih d hd
    | some c =>
      rw [hc] at hd
      dsimp only at hd
      by_cases hle : c ≤ t
      · rw [if_pos hle] at hd; exact ih d hd
      · rw [if_neg hle] at hd
        split at hd
        · cases hd; omega
        · exact ih d hd

theorem find_qa_end_time_gt (hs : List HistoryEntry) (t : Nat) (ss : String)
    (d : Nat) (h : CycleTimeStrategy.find_qa_end_time hs t ss = some d) :
    t < d :=
  qa_end_go_gt (lowerStr ss) t (sortByCreated hs) d h

theorem completion_lists_gt (cfg : Strategy) (t : Nat) (w : Option String)
    (pOpt : Option (List (Nat × Option Nat))) :
    ∀ hs : List HistoryEntry,
    (∀ c ∈ (ComplexCycleTimeStrategy.completion_lists cfg t w pOpt hs).1,
      t < c) ∧
    (∀ c ∈ (ComplexCycleTimeStrategy.completion_lists cfg t w pOpt hs).2,
      t < c) := by
  intro hs
  induction hs with
  | nil => simp [ComplexCycleTimeStrategy.completion_lists]
  | cons h rest ih =>
    unfold ComplexCycleTimeStrategy.completion_lists
    cases hc : h.created with
    | none => simpa using ih
    | some c =>
      simp only
      by_cases hle : c ≤ t
      · simpa [hle] using ih
      · simp only [if_neg hle]
        by_cases hin :
            (!ComplexCycleTimeStrategy.is_in_assignee_period c pOpt) = true
        · simpa [hin] using ih
        · simp only [hin, Bool.false_eq_true, if_false]
          constructor
          · intro c' hc'
            rcases List.mem_append.mp hc' with hmem | hmem
            · split at hmem
              · rcases List.mem_singleton.mp hmem with rfl; omega
              · cases hmem
            · exact ih.1 c' hmem
          · intro c' hc'
            rcases List.mem_append.mp hc' with hmem | hmem
            · split at hmem
              · rcases List.mem_singleton.mp hmem with rfl; omega
              · cases hmem
            · exact ih.2 c' hmem

theorem find_first_completion_gt (cfg : Strategy) (hs : List HistoryEntry)
    (t : Nat) (w : Option String) (pOpt : Option (List (Nat × Option Nat)))
    (d : Nat)
    (h : ComplexCycleTimeStrategy.find_first_completion cfg hs t w pOpt =
      some d) : t < d := by
  simp only [ComplexCycleTimeStrategy.find_first_completion] at h
  split at h
  · next heq =>
    cases h
    exact (completion_lists_gt cfg t w pOpt hs).1 _ (listMin_mem _ _ heq)
  · exact (completion_lists_gt cfg t w pOpt hs).2 _ (listMin_mem _ _ h)

/-! Lemmas stating that every complete cycle produced by `_find_all_cycles`
has its end not before its start (the entries are sorted before folding). -/

theorem cyclesItemStep_le (cfg : Strategy)
    (pOpt : Option (List (Nat × Option Nat))) (c : Nat) (i : ChangeItem)
    (st : List (Nat × Option Nat) × Option Nat)
    (h1 : ∀ p ∈ st.1, ∀ e, p.2 = some e → p.1 ≤ e)
    (h2 : ∀ s, st.2 = some s → s ≤ c) :
    (∀ p ∈ (ComplexCycleTimeStrategy.cyclesItemStep cfg pOpt c i st).1,
      ∀ e, p.2 = some e → p.1 ≤ e) ∧
    (∀ s, (ComplexCycleTimeStrategy.cyclesItemStep cfg pOpt c i st).2 =
      some s → s ≤ c) := by
  by_cases hf : i.field = "status"
  · by_cases hip : norm_str i.toString ∈ cfg.in_progress_lower ∧ st.2 = none
    · by_cases hin :
          ComplexCycleTimeStrategy.is_in_assignee_period c pOpt = true
      · simp only [ComplexCycleTimeStrategy.cyclesItemStep, if_pos hf,
          if_pos hip, if_pos hin]
        exact ⟨h1, fun s hs => by cases hs; omega⟩
      · simp only [ComplexCycleTimeStrategy.cyclesItemStep, if_pos hf,
          if_pos hip, if_neg hin]
        exact ⟨h1, h2⟩
    · by_cases hdn :
          norm_str i.toString ∈ cfg.done_lower ∧ st.2.isSome = true
      · by_cases hin :
            ComplexCycleTimeStrategy.is_in_assignee_period c pOpt = true
        · simp only [ComplexCycleTimeStrategy.cyclesItemStep, if_pos hf,
            if_neg hip, if_pos hdn, if_pos hin]
          refine ⟨?_, by simp⟩
          intro p hp e hpe
          rcases List.mem_append.mp hp with hmem | hmem
          · exact h1 p hmem e hpe
          · rcases List.mem_singleton.mp hmem with rfl
            cases hpe
            rcases Option.isSome_iff_exists.mp hdn.2 with ⟨s, hs⟩
            have hsc := h2 s hs
            simp only [hs, Option.getD_some]
            exact hsc
        · simp only [ComplexCycleTimeStrategy.cyclesItemStep, if_pos hf,
            if_neg hip, if_pos hdn, if_neg hin]
          exact ⟨h1, h2⟩
      · simp only [ComplexCycleTimeStrategy.cyclesItemStep, if_pos hf,
          if_neg hip, if_neg hdn]
        exact ⟨h1, h2⟩
  · simp only [ComplexCycleTimeStrategy.cyclesItemStep, if_neg hf]
    exact ⟨h1, h2⟩

theorem cyclesItems_foldl_le (cfg : Strategy)
    (pOpt : Option (List (Nat × Option Nat))) (c : Nat)
    (items : List ChangeItem) (st : List (Nat × Option Nat) × Option Nat)
    (h1 : ∀ p ∈ st.1, ∀ e, p.2 = some e → p.1 ≤ e)
    (h2 : ∀ s, st.2 = some s → s ≤ c) :
    (∀ p ∈ (items.foldl
        (fun st i => ComplexCycleTimeStrategy.cyclesItemStep cfg pOpt c i st)
        st).1, ∀ e, p.2 = some e → p.1 ≤ e) ∧
    (∀ s, (items.foldl
        (fun st i => ComplexCycleTimeStrategy.cyclesItemStep cfg pOpt c i st)
        st).2 = some s → s ≤ c) := by
  refine foldl_preserve (fun st =>
    (∀ p ∈ st.1, ∀ e, p.2 = some e → p.1 ≤ e) ∧
    (∀ s, st.2 = some s → s ≤ c)) _ items st ⟨h1, h2⟩ ?_
  intro s i _ hp
  exact cyclesItemStep_le cfg pOpt c i s hp.1 hp.2

theorem cyclesFold_le (cfg : Strategy)
    (pOpt : Option (List (Nat × Option Nat))) :
    ∀ (l : List HistoryEntry) (st : List (Nat × Option Nat) × Option Nat),
    l.Pairwise (fun a b => keyOf a ≤ keyOf b) →
    (∀ p ∈ st.1, ∀ e, p.2 = some e → p.1 ≤ e) →
    (∀ s, st.2 = some s → ∀ h ∈ l, s ≤ keyOf h) →
    ∀ p ∈ (l.foldl (fun st h =>
        match h.created with
        | none => st
        | some c => h.items.foldl
            (fun st i => ComplexCycleTimeStrategy.cyclesItemStep cfg pOpt c i st)
            st) st).1,
      ∀ e, p.2 = some e → p.1 ≤ e := by
  intro l
  induction l with
  | nil => intro st _ h1 _; simpa using h1
  | cons h rest ih =>
    intro st hp h1 h2
    rw [List.pairwise_cons] at hp
    rw [List.foldl_cons]
    cases hc : h.created with
    | none =>
      simp only [hc]
      exact ih st hp.2 h1
        (fun s hs h' hh' => h2 s hs h' (List.mem_cons_of_mem _ hh'))
    | some c =>
      simp only [hc]
      have hkey : keyOf h = c := by simp [keyOf, hc]
      have hstep := cyclesItems_foldl_le cfg pOpt c h.items st h1
        (fun s hs => by
          have := h2 s hs h (List.mem_cons_self _ _)
          omega)
      refine ih _ hp.2 hstep.1 ?_
      intro s hs h' hh'
      have hsc := hstep.2 s hs
      have := hp.1 h' hh'
      omega

theorem find_all_cycles_le_C (cfg : Strategy) (hs : List HistoryEntry)
    (pOpt : Option (List (Nat × Option Nat))) :
    ∀ p ∈ ComplexCycleTimeStrategy.find_all_cycles cfg hs pOpt,
    ∀ e, p.2 = some e → p.1 ≤ e := by
  simp only [ComplexCycleTimeStrategy.find_all_cycles]
  have h := cyclesFold_le cfg pOpt (sortByCreated hs) ([], none)
    (pairwise_sortByCreated hs) (by simp) (by simp)
  split
  · next s heq =>
    intro p hp e hpe
    rcases List.mem_append.mp hp with hmem | hmem
    · exact h p hmem e hpe
    · rcases List.mem_singleton.mp hmem with rfl
      cases hpe
  · exact h

theorem cyclesItemStep_S_eq (cfg : Strategy) (c : Nat) (i : ChangeItem)
    (st : List (Nat × Option Nat) × Option Nat) :
    SimpleCycleTimeStrategy.cyclesItemStep cfg c i st =
      ComplexCycleTimeStrategy.cyclesItemStep cfg none c i st := by
  unfold SimpleCycleTimeStrategy.cyclesItemStep
    ComplexCycleTimeStrategy.cyclesItemStep
  simp [ComplexCycleTimeStrategy.is_in_assignee_period]

theorem find_all_cycles_S_eq (cfg : Strategy) (hs : List HistoryEntry) :
    SimpleCycleTimeStrategy.find_all_cycles cfg hs =
      ComplexCycleTimeStrategy.find_all_cycles cfg hs none := by
  unfold SimpleCycleTimeStrategy.find_all_cycles
    ComplexCycleTimeStrategy.find_all_cycles
  have hfun : (fun (st : List (Nat × Option Nat) × Option Nat)
      (h : HistoryEntry) =>
      match h.created with
      | none => st
      | some c => h.items.foldl
          (fun st i => SimpleCycleTimeStrategy.cyclesItemStep cfg c i st) st) =
      (fun st h =>
      match h.created with
      | none => st
      | some c => h.items.foldl
          (fun st i => ComplexCycleTimeStrategy.cyclesItemStep cfg none c i st)
          st) := by
    funext st h
    cases h.created <;> simp [cyclesItemStep_S_eq]
  rw [hfun]

theorem find_all_cycles_le_S (cfg : Strategy) (hs : List HistoryEntry) :
    ∀ p ∈ SimpleCycleTimeStrategy.find_all_cycles cfg hs,
    ∀ e, p.2 = some e → p.1 ≤ e := by
  rw [find_all_cycles_S_eq]
  exact find_all_cycles_le_C cfg hs none

/-! The per-cycle summation loop keeps the earliest cycle start below the
latest cycle end. -/

theorem cycleAccum_inv (cfg : Strategy) (hs : List HistoryEntry)
    (st : CycleTimeStrategy.CycTotals) (cs : Nat) (ce : Option Nat)
    (hcy : ∀ e, ce = some e → cs ≤ e)
    (h : ∀ d, st.last_done = some d →
      ∃ f, st.first_in_progress = some f ∧ f ≤ d) :
    ∀ d, (CycleTimeStrategy.cycleAccum cfg hs st (cs, ce)).last_done =
      some d →
    ∃ f, (CycleTimeStrategy.cycleAccum cfg hs st (cs, ce)).first_in_progress =
      some f ∧ f ≤ d := by
  intro d hd
  cases hfi : st.first_in_progress with
  | none =>
    cases hce : ce with
    | none =>
      simp only [CycleTimeStrategy.cycleAccum, hfi, hce] at hd ⊢
      rcases h d hd with ⟨f, hf, _⟩
      simp [hfi] at hf
    | some e =>
      have hcse : cs ≤ e := hcy e hce
      cases hld : st.last_done with
      | none =>
        simp only [CycleTimeStrategy.cycleAccum, hfi, hce, hld] at hd ⊢
        cases hd
        exact ⟨cs, rfl, hcse⟩
      | some l =>
        rcases h l hld with ⟨f, hf, _⟩
        simp [hfi] at hf
  | some f =>
    by_cases hcf : cs < f
    · cases hce : ce with
      | none =>
        simp only [CycleTimeStrategy.cycleAccum, hfi, hce, if_pos hcf] at hd ⊢
        rcases h d hd with ⟨f', hf', hfd⟩
        rw [hfi] at hf'
        cases hf'
        exact ⟨cs, rfl, by omega⟩
      | some e =>
        have hcse : cs ≤ e := hcy e hce
        cases hld : st.last_done with
        | none =>
          simp only [CycleTimeStrategy.cycleAccum, hfi, hce, hld,
            if_pos hcf] at hd ⊢
          cases hd
          exact ⟨cs, rfl, hcse⟩
        | some l =>
          rcases h l hld with ⟨f', hf', hfl⟩
          rw [hfi] at hf'
          cases hf'
          by_cases hle : l < e
          · simp only [CycleTimeStrategy.cycleAccum, hfi, hce, hld,
              if_pos hcf, if_pos hle] at hd ⊢
            cases hd
            exact ⟨cs, rfl, hcse⟩
          · simp only [CycleTimeStrategy.cycleAccum, hfi, hce, hld,
              if_pos hcf, if_neg hle] at hd ⊢
            cases hd
            exact ⟨cs, rfl, by omega⟩
    · cases hce : ce with
      | none =>
        simp only [CycleTimeStrategy.cycleAccum, hfi, hce, if_neg hcf] at hd ⊢
        rcases h d hd with ⟨f', hf', hfd⟩
        rw [hfi] at hf'
        cases hf'
        exact ⟨f, rfl, hfd⟩
      | some e =>
        have hcse : cs ≤ e := hcy e hce
        cases hld : st.last_done with
        | none =>
          simp only [CycleTimeStrategy.cycleAccum, hfi, hce, hld,
            if_neg hcf] at hd ⊢
          cases hd
          exact ⟨f, rfl, by omega⟩
        | some l =>
          rcases h l hld with ⟨f', hf', hfl⟩
          rw [hfi] at hf'
          cases hf'
          by_cases hle : l < e
          · simp only [CycleTimeStrategy.cycleAccum, hfi, hce, hld,
              if_neg hcf, if_pos hle] at hd ⊢
            cases hd
            exact ⟨f, rfl, by omega⟩
          · simp only [CycleTimeStrategy.cycleAccum, hfi, hce, hld,
              if_neg hcf, if_neg hle] at hd ⊢
            cases hd
            exact ⟨f, rfl, by omega⟩

theorem cycleFold_inv (cfg : Strategy) (hs : List HistoryEntry) :
    ∀ (cycles : List (Nat × Option Nat)) (st : CycleTimeStrategy.CycTotals),
    (∀ p ∈ cycles, ∀ e, p.2 = some e → p.1 ≤ e) →
    (∀ d, st.last_done = some d →
      ∃ f, st.first_in_progress = some f ∧ f ≤ d) →
    ∀ d, (cycles.foldl (CycleTimeStrategy.cycleAccum cfg hs) st).last_done =
      some d →
    ∃ f, (cycles.foldl
        (CycleTimeStrategy.cycleAccum cfg hs) st).first_in_progress =
      some f ∧ f ≤ d := by
  intro cycles
  induction cycles with
  | nil => intro st _ h; exact h
  | cons cy rest ih =>
    intro st hc h
    rw [List.foldl_cons]
    refine ih _ (fun p hp => hc p (List.mem_cons_of_mem _ hp)) ?_
    obtain ⟨cs, ce⟩ := cy
    exact cycleAccum_inv cfg hs st cs ce
      (fun e he => hc (cs, ce) (List.mem_cons_self _ _) e he) h

/-! Output-shape lemmas for each terminal computation: whenever `seconds` is
present, both window endpoints are present and ordered. -/

theorem shape_with_cycles_C (cfg : Strategy) (hs : List HistoryEntry)
    (key : String) (pOpt : Option (List (Nat × Option Nat))) :
    (ComplexCycleTimeStrategy.calculate_with_cycles cfg hs key
      pOpt).seconds.isSome = true →
    ∃ a b, (ComplexCycleTimeStrategy.calculate_with_cycles cfg hs key
        pOpt).in_progress_at = some a ∧
      (ComplexCycleTimeStrategy.calculate_with_cycles cfg hs key
        pOpt).done_at = some b ∧ a ≤ b := by
  simp only [ComplexCycleTimeStrategy.calculate_with_cycles]
  split
  · simp
  · split
    · simp
    · next d hld =>
      intro _
      rcases cycleFold_inv cfg hs
          (ComplexCycleTimeStrategy.find_all_cycles cfg hs pOpt)
          ⟨0, 0, 0, none, none⟩ (find_all_cycles_le_C cfg hs pOpt)
          (by simp) d hld with ⟨f, hf, hfd⟩
      exact ⟨f, d, hf, rfl, hfd⟩

theorem shape_with_cycles_S (cfg : Strategy) (hs : List HistoryEntry)
    (key : String) :
    (SimpleCycleTimeStrategy.calculate_with_cycles cfg hs
      key).seconds.isSome = true →
    ∃ a b, (SimpleCycleTimeStrategy.calculate_with_cycles cfg hs
        key).in_progress_at = some a ∧
      (SimpleCycleTimeStrategy.calculate_with_cycles cfg hs
        key).done_at = some b ∧ a ≤ b := by
  simp only [SimpleCycleTimeStrategy.calculate_with_cycles]
  split
  · simp
  · split
    · simp
    · next d hld =>
      intro _
      rcases cycleFold_inv cfg hs
          (SimpleCycleTimeStrategy.find_all_cycles cfg hs)
          ⟨0, 0, 0, none, none⟩ (find_all_cycles_le_S cfg hs)
          (by simp) d hld with ⟨f, hf, hfd⟩
      exact ⟨f, d, hf, rfl, hfd⟩

theorem shape_qa (cfg : Strategy) (hs : List HistoryEntry) (key : String)
    (t : Nat) (ss : String) :
    (CycleTimeStrategy.calculate_with_qa_start cfg hs key t
      ss).seconds.isSome = true →
    ∃ a b, (CycleTimeStrategy.calculate_with_qa_start cfg hs key t
        ss).in_progress_at = some a ∧
      (CycleTimeStrategy.calculate_with_qa_start cfg hs key t
        ss).done_at = some b ∧ a ≤ b := by
  simp only [CycleTimeStrategy.calculate_with_qa_start]
  split
  · simp
  · next d hd =>
    intro _
    exact ⟨t, d, rfl, rfl, le_of_lt (find_qa_end_time_gt hs t ss d hd)⟩

theorem shape_ftl_S (cfg : Strategy) (hs : List HistoryEntry) (key : String) :
    (SimpleCycleTimeStrategy.calculate_first_to_last cfg hs
      key).seconds.isSome = true →
    ∃ a b, (SimpleCycleTimeStrategy.calculate_first_to_last cfg hs
        key).in_progress_at = some a ∧
      (SimpleCycleTimeStrategy.calculate_first_to_last cfg hs
        key).done_at = some b ∧ a ≤ b := by
  simp only [SimpleCycleTimeStrategy.calculate_first_to_last]
  split
  · simp
  · next t hft =>
    split
    · simp
    · next d hfd =>
      intro _
      exact ⟨t, d, rfl, rfl, le_of_lt (find_first_done_gt cfg hs t d hfd)⟩

theorem shape_ftl_C (cfg : Strategy) (hs : List HistoryEntry) (key : String)
    (w : Option String) (pOpt : Option (List (Nat × Option Nat))) :
    (ComplexCycleTimeStrategy.calculate_first_to_last cfg hs key w
      pOpt).seconds.isSome = true →
    ∃ a b, (ComplexCycleTimeStrategy.calculate_first_to_last cfg hs key w
        pOpt).in_progress_at = some a ∧
      (ComplexCycleTimeStrategy.calculate_first_to_last cfg hs key w
        pOpt).done_at = some b ∧ a ≤ b := by
  simp only [ComplexCycleTimeStrategy.calculate_first_to_last]
  split
  · simp
  · next t hft =>
    split
    · simp
    · next d hfd =>
      intro _
      exact ⟨t, d, rfl, rfl,
        le_of_lt (find_first_completion_gt cfg hs t w pOpt d hfd)⟩

theorem shape_dispatch (cfg : Strategy) (hs : List HistoryEntry)
    (key : String) (w : Option String)
    (pOpt : Option (List (Nat × Option Nat))) :
    (ComplexCycleTimeStrategy.dispatch cfg hs key w pOpt).seconds.isSome =
      true →
    ∃ a b, (ComplexCycleTimeStrategy.dispatch cfg hs key w
        pOpt).in_progress_at = some a ∧
      (ComplexCycleTimeStrategy.dispatch cfg hs key w pOpt).done_at =
        some b ∧ a ≤ b := by
  simp only [ComplexCycleTimeStrategy.dispatch]
  split
  · exact shape_with_cycles_C cfg hs key pOpt
  · exact shape_ftl_C cfg hs key w pOpt

theorem shape_calculate_S (cfg : Strategy) (hs : List HistoryEntry)
    (key : String) (w : Option String) :
    (SimpleCycleTimeStrategy.calculate cfg hs key w).seconds.isSome = true →
    ∃ a b, (SimpleCycleTimeStrategy.calculate cfg hs key
        w).in_progress_at = some a ∧
      (SimpleCycleTimeStrategy.calculate cfg hs key w).done_at =
        some b ∧ a ≤ b := by
  simp only [SimpleCycleTimeStrategy.calculate]
  split
  · next qa_start start_status _ => exact shape_qa cfg hs key qa_start _
  · split
    · exact shape_with_cycles_S cfg hs key
    · exact shape_ftl_S cfg hs key

theorem shape_calculate_C (cfg : Strategy) (hs : List HistoryEntry)
    (key : String) (w : Option String) :
    (ComplexCycleTimeStrategy.calculate cfg hs key w).seconds.isSome = true →
    ∃ a b, (ComplexCycleTimeStrategy.calculate cfg hs key
        w).in_progress_at = some a ∧
      (ComplexCycleTimeStrategy.calculate cfg hs key w).done_at =
        some b ∧ a ≤ b := by
  simp only [ComplexCycleTimeStrategy.calculate]
  split
  · next qa_start start_status _ => exact shape_qa cfg hs key qa_start _
  · split
    · split
      · split
        · exact shape_dispatch cfg hs key w none
        · simp
      · exact shape_dispatch cfg hs key w _
    · exact shape_dispatch cfg hs key w none

/-! Accounting-field lemmas: the optional accounting totals are populated
exactly when `seconds` is populated, for each terminal computation. -/

theorem acc_with_cycles_C (cfg : Strategy) (hs : List HistoryEntry)
    (key : String) (pOpt : Option (List (Nat × Option Nat))) :
    ((ComplexCycleTimeStrategy.calculate_with_cycles cfg hs key
        pOpt).excluded_seconds.isSome =
      (ComplexCycleTimeStrategy.calculate_with_cycles cfg hs key
        pOpt).seconds.isSome) ∧
    ((ComplexCycleTimeStrategy.calculate_with_cycles cfg hs key
        pOpt).impediment_seconds.isSome =
      (ComplexCycleTimeStrategy.calculate_with_cycles cfg hs key
        pOpt).seconds.isSome) := by
  simp only [ComplexCycleTimeStrategy.calculate_with_cycles]
  split
  · simp
  · split <;> simp

theorem acc_with_cycles_S (cfg : Strategy) (hs : List HistoryEntry)
    (key : String) :
    ((SimpleCycleTimeStrategy.calculate_with_cycles cfg hs
        key).excluded_seconds.isSome =
      (SimpleCycleTimeStrategy.calculate_with_cycles cfg hs
        key).seconds.isSome) ∧
    ((SimpleCycleTimeStrategy.calculate_with_cycles cfg hs
        key).impediment_seconds.isSome =
      (SimpleCycleTimeStrategy.calculate_with_cycles cfg hs
        key).seconds.isSome) := by
  simp only [SimpleCycleTimeStrategy.calculate_with_cycles]
  split
  · simp
  · split <;> simp

theorem acc_qa (cfg : Strategy) (hs : List HistoryEntry) (key : String)
    (t : Nat) (ss : String) :
    ((CycleTimeStrategy.calculate_with_qa_start cfg hs key t
        ss).excluded_seconds.isSome =
      (CycleTimeStrategy.calculate_with_qa_start cfg hs key t
        ss).seconds.isSome) ∧
    ((CycleTimeStrategy.calculate_with_qa_start cfg hs key t
        ss).impediment_seconds.isSome =
      (CycleTimeStrategy.calculate_with_qa_start cfg hs key t
        ss).seconds.isSome) := by
  simp only [CycleTimeStrategy.calculate_with_qa_start]
  split <;> simp

theorem acc_ftl_S (cfg : Strategy) (hs : List HistoryEntry) (key : String) :
    ((SimpleCycleTimeStrategy.calculate_first_to_last cfg hs
        key).excluded_seconds.isSome =
      (SimpleCycleTimeStrategy.calculate_first_to_last cfg hs
        key).seconds.isSome) ∧
    ((SimpleCycleTimeStrategy.calculate_first_to_last cfg hs
        key).impediment_seconds.isSome =
      (SimpleCycleTimeStrategy.calculate_first_to_last cfg hs
        key).seconds.isSome) := by
  simp only [SimpleCycleTimeStrategy.calculate_first_to_last]
  split
  · simp
  · split <;> simp

theorem acc_ftl_C (cfg : Strategy) (hs : List HistoryEntry) (key : String)
    (w : Option String) (pOpt : Option (List (Nat × Option Nat))) :
    ((ComplexCycleTimeStrategy.calculate_first_to_last cfg hs key w
        pOpt).excluded_seconds.isSome =
      (ComplexCycleTimeStrategy.calculate_first_to_last cfg hs key w
        pOpt).seconds.isSome) ∧
    ((ComplexCycleTimeStrategy.calculate_first_to_last cfg hs key w
        pOpt).impediment_seconds.isSome =
      (ComplexCycleTimeStrategy.calculate_first_to_last cfg hs key w
        pOpt).seconds.isSome) := by
  simp only [ComplexCycleTimeStrategy.calculate_first_to_last]
  split
  · simp
  · split <;> simp

theorem acc_dispatch (cfg : Strategy) (hs : List HistoryEntry) (key : String)
    (w : Option String) (pOpt : Option (List (Nat × Option Nat))) :
    ((ComplexCycleTimeStrategy.dispatch cfg hs key w
        pOpt).excluded_seconds.isSome =
      (ComplexCycleTimeStrategy.dispatch cfg hs key w
        pOpt).seconds.isSome) ∧
    ((ComplexCycleTimeStrategy.dispatch cfg hs key w
        pOpt).impediment_seconds.isSome =
      (ComplexCycleTimeStrategy.dispatch cfg hs key w
        pOpt).seconds.isSome) := by
  simp only [ComplexCycleTimeStrategy.dispatch]
  split
  · exact acc_with_cycles_C cfg hs key pOpt
  · exact acc_ftl_C cfg hs key w pOpt

/-! Claim theorems. -/

/-- C1 (code_bug): the engine calculation (strategy selection through
`should_use_complex_strategy`, then the selected strategy) is not invariant
under permutation of the history: `histPerm` is a permutation of
`histChrono`, yet the two runs return different `CycleTime` records (the
excluded-status accumulator consumes the entries in input order without
sorting them). -/
theorem c1_engine_not_permutation_invariant :
    histPerm.Perm histChrono ∧
    CycleTimeCalculator.calculate_cycle_time exCfg histPerm "K" none ≠
      CycleTimeCalculator.calculate_cycle_time exCfg histChrono "K" none := by
  constructor
  · decide
  · decide

/-- C2 (code_bug): on the permuted history `histPerm` the engine returns
`seconds = -3600`, a negative value: the implementation never clamps at
zero, so the non-negativity claim fails on unsorted histories. -/
theorem c2_engine_returns_negative_seconds :
    (CycleTimeCalculator.calculate_cycle_time exCfg histPerm "K"
      none).seconds = some (-3600) := by
  decide

/-- C3 (confirmed): for both strategies, whenever the returned `CycleTime`
has `seconds` present, `in_progress_at` and `done_at` are both present and
`done_at` is not before `in_progress_at`. -/
theorem c3_seconds_implies_window (cfg : Strategy) (hs : List HistoryEntry)
    (key : String) (w : Option String) :
    ((SimpleCycleTimeStrategy.calculate cfg hs key w).seconds.isSome = true →
      ∃ a b, (SimpleCycleTimeStrategy.calculate cfg hs key
          w).in_progress_at = some a ∧
        (SimpleCycleTimeStrategy.calculate cfg hs key w).done_at =
          some b ∧ a ≤ b) ∧
    ((ComplexCycleTimeStrategy.calculate cfg hs key w).seconds.isSome =
        true →
      ∃ a b, (ComplexCycleTimeStrategy.calculate cfg hs key
          w).in_progress_at = some a ∧
        (ComplexCycleTimeStrategy.calculate cfg hs key w).done_at =
          some b ∧ a ≤ b) :=
  ⟨shape_calculate_S cfg hs key w, shape_calculate_C cfg hs key w⟩

/-- Witness for C3 on the concrete linear history. -/
theorem c3_seconds_implies_window_witness :
    (∃ a b, (SimpleCycleTimeStrategy.calculate exCfg histLinear "K"
        none).in_progress_at = some a ∧
      (SimpleCycleTimeStrategy.calculate exCfg histLinear "K" none).done_at =
        some b ∧ a ≤ b) ∧
    (∃ a b, (ComplexCycleTimeStrategy.calculate exCfg histLinear "K"
        none).in_progress_at = some a ∧
      (ComplexCycleTimeStrategy.calculate exCfg histLinear "K"
        none).done_at = some b ∧ a ≤ b) :=
  ⟨(c3_seconds_implies_window exCfg histLinear "K" none).1 (by decide),
   (c3_seconds_implies_window exCfg histLinear "K" none).2 (by decide)⟩

/-- C10 (confirmed): for both strategies, `excluded_seconds` is present
exactly when `seconds` is present, and likewise for `impediment_seconds`. -/
theorem c10_accounting_coupled (cfg : Strategy) (hs : List HistoryEntry)
    (key : String) (w : Option String) :
    (((SimpleCycleTimeStrategy.calculate cfg hs key
        w).excluded_seconds.isSome =
      (SimpleCycleTimeStrategy.calculate cfg hs key w).seconds.isSome) ∧
     ((SimpleCycleTimeStrategy.calculate cfg hs key
        w).impediment_seconds.isSome =
      (SimpleCycleTimeStrategy.calculate cfg hs key w).seconds.isSome)) ∧
    (((ComplexCycleTimeStrategy.calculate cfg hs key
        w).excluded_seconds.isSome =
      (ComplexCycleTimeStrategy.calculate cfg hs key w).seconds.isSome) ∧
     ((ComplexCycleTimeStrategy.calculate cfg hs key
        w).impediment_seconds.isSome =
      (ComplexCycleTimeStrategy.calculate cfg hs key w).seconds.isSome)) := by
  constructor
  · simp only [SimpleCycleTimeStrategy.calculate]
    split
    · next qa_start start_status _ => exact acc_qa cfg hs key qa_start _
    · split
      · exact acc_with_cycles_S cfg hs key
      · exact acc_ftl_S cfg hs key
  · simp only [ComplexCycleTimeStrategy.calculate]
    split
    · next qa_start start_status _ => exact acc_qa cfg hs key qa_start _
    · split
      · split
        · split
          · exact acc_dispatch cfg hs key w none
          · simp
        · exact acc_dispatch cfg hs key w _
      · exact acc_dispatch cfg hs key w none

/-- C5 (confirmed): the membership predicate of the assignment periods
returns true with no filter; covers closed periods inclusively; and after a
closed period end it returns true exactly when the timestamp is on the same
UTC calendar day as the end and at most four hours after it; before the
period it returns false. -/
theorem c5_grace_rule_membership :
    (∀ t : Nat,
      ComplexCycleTimeStrategy.is_in_assignee_period t none = true) ∧
    (∀ s e t : Nat, s ≤ t → t ≤ e →
      ComplexCycleTimeStrategy.is_in_assignee_period t
        (some [(s, some e)]) = true) ∧
    (∀ s e t : Nat, e < t →
      (ComplexCycleTimeStrategy.is_in_assignee_period t
          (some [(s, some e)]) = true ↔
        (dateOf t = dateOf e ∧ t - e ≤ 4 * 3600))) ∧
    (∀ s e t : Nat, t < s → s ≤ e →
      ComplexCycleTimeStrategy.is_in_assignee_period t
        (some [(s, some e)]) = false) := by
  refine ⟨fun t => rfl, ?_, ?_, ?_⟩
  · intro s e t h1 h2
    simp [ComplexCycleTimeStrategy.is_in_assignee_period, h1, h2]
  · intro s e t h
    have hte : ¬ (s ≤ t ∧ t ≤ e) := by omega
    simp [ComplexCycleTimeStrategy.is_in_assignee_period, hte, h]
  · intro s e t h1 h2
    have ha : ¬ (s ≤ t ∧ t ≤ e) := by omega
    have hb : ¬ (e < t) := by omega
    simp [ComplexCycleTimeStrategy.is_in_assignee_period, ha, hb]
    omega

/-- Witness for C5 at concrete timestamps (period `[0h, 10h]` on day 0; the
probe 11h is in grace, 3h-before-start is out). -/
theorem c5_grace_rule_membership_witness :
    ComplexCycleTimeStrategy.is_in_assignee_period 18000 none = true ∧
    ComplexCycleTimeStrategy.is_in_assignee_period 18000
      (some [(0, some 36000)]) = true ∧
    (ComplexCycleTimeStrategy.is_in_assignee_period 39600
        (some [(0, some 36000)]) = true ↔
      (dateOf 39600 = dateOf 36000 ∧ 39600 - 36000 ≤ 4 * 3600)) ∧
    ComplexCycleTimeStrategy.is_in_assignee_period 10800
      (some [(14400, some 36000)]) = false :=
  ⟨c5_grace_rule_membership.1 18000,
   c5_grace_rule_membership.2.1 0 36000 18000 (by decide) (by decide),
   c5_grace_rule_membership.2.2.1 0 36000 39600 (by decide),
   c5_grace_rule_membership.2.2.2 14400 36000 10800 (by decide) (by decide)⟩

/-! Counting lemmas for the strategy selector. -/

theorem count_items_one (items : List ChangeItem) :
    ∀ (a b : Nat),
    items.foldl (fun (ac : Nat × Nat) i =>
      if i.field = "assignee" then (ac.1 + 1, ac.2)
      else if i.field = "status" then (ac.1, ac.2 + 1)
      else ac) (a, b) =
    (a + items.countP (fun i => decide (i.field = "assignee")),
     b + items.countP (fun i => decide (i.field = "status"))) := by
  induction items with
  | nil => intro a b; simp
  | cons i is ih =>
    intro a b
    rw [List.foldl_cons]
    by_cases ha : i.field = "assignee"
    · have hst : ¬ i.field = "status" := by rw [ha]; decide
      simp only [if_pos ha, ih, List.countP_cons, ha, hst]
      simp
      omega
    · by_cases hst : i.field = "status"
      · simp only [if_neg ha, if_pos hst, ih, List.countP_cons, ha, hst]
        simp
        omega
      · simp only [if_neg ha, if_neg hst, ih, List.countP_cons, ha, hst]
        simp [ha, hst]

theorem count_items_fold (hs : List HistoryEntry) :
    ∀ (a b : Nat),
    hs.foldl (fun (ac : Nat × Nat) h =>
      h.items.foldl (fun ac i =>
        if i.field = "assignee" then (ac.1 + 1, ac.2)
        else if i.field = "status" then (ac.1, ac.2 + 1)
        else ac) ac) (a, b) =
    (a + (hs.map (fun h =>
        h.items.countP (fun i => decide (i.field = "assignee")))).sum,
     b + (hs.map (fun h =>
        h.items.countP (fun i => decide (i.field = "status")))).sum) := by
  induction hs with
  | nil => intro a b; simp
  | cons h rest ih =>
    intro a b
    rw [List.foldl_cons, count_items_one, ih]
    simp
    omega

/-- C6 (confirmed): the strategy selector returns `complex` exactly when a
worker filter is provided, or more than two `assignee` items exist, or more
than five `status` items exist. -/
theorem c6_strategy_selector_rule (hs : List HistoryEntry)
    (w : Option String) :
    CycleTimeStrategy.should_use_complex_strategy hs w =
      (decide (2 < (hs.map (fun h =>
          h.items.countP (fun i => decide (i.field = "assignee")))).sum) ||
       decide (5 < (hs.map (fun h =>
          h.items.countP (fun i => decide (i.field = "status")))).sum) ||
       w.isSome) := by
  simp only [CycleTimeStrategy.should_use_complex_strategy]
  rw [count_items_fold hs 0 0]
  simp

/-- C7 (corrected), counterexample: with `is_qa` set the simple strategy
does consult the provided worker identity.  On `histQaBacklog` the results
for workers `q` and `r` differ (the QA start detector fires only for the
author `q`). -/
theorem c7_simple_strategy_uses_worker_in_qa :
    SimpleCycleTimeStrategy.calculate qaCfg histQaBacklog "K" (some "q") ≠
      SimpleCycleTimeStrategy.calculate qaCfg histQaBacklog "K"
        (some "r") := by
  decide

/-- C7 (corrected), amended claim: when the vocabulary has `is_qa = false`,
the simple strategy ignores any provided worker identity: the result is the
same for every pair of worker arguments (in particular equal to the result
with no worker). -/
theorem c7_simple_ignores_worker_amended (cfg : Strategy)
    (hqa : cfg.is_qa = false) (hs : List HistoryEntry) (key : String)
    (w w2 : Option String) :
    SimpleCycleTimeStrategy.calculate cfg hs key w =
      SimpleCycleTimeStrategy.calculate cfg hs key w2 := by
  simp [SimpleCycleTimeStrategy.calculate, hqa]

/-- Witness for the amended C7 on a concrete non-QA vocabulary. -/
theorem c7_simple_ignores_worker_amended_witness :
    SimpleCycleTimeStrategy.calculate exCfg histLinear "K" (some "a") =
      SimpleCycleTimeStrategy.calculate exCfg histLinear "K" none :=
  c7_simple_ignores_worker_amended exCfg (by decide) histLinear "K"
    (some "a") none

/-- C8 (code_bug): the QA start detector accepts the assign-on-Acceptance
pattern without checking the author of the assignee event: on
`histAssignedByBoss` no entry is authored by the worker `qa`, yet the
detector yields the third-party assignment event as the QA start. -/
theorem c8_assign_on_acceptance_ignores_author :
    CycleTimeStrategy.find_qa_start_time qaCfg histAssignedByBoss
      (some "qa") = some (7200, "acceptance") ∧
    ∀ h ∈ histAssignedByBoss, ¬ h.authorId = some "qa" := by
  exact ⟨by decide, by decide⟩

/-- C9 (corrected), counterexample: with `is_qa` set, a worker with no
assignment periods who authored no in-progress or done transition can still
receive a CycleTime with `in_progress_at` populated, through the QA start
detector, so the all-nil guarantee fails as literally stated. -/
theorem c9_qa_start_bypasses_never_involved :
    ComplexCycleTimeStrategy.get_assignee_periods histAuthoredFoo "qa" =
      [] ∧
    ComplexCycleTimeStrategy.is_author_of_transitions qaCfg histAuthoredFoo
      "qa" = false ∧
    ¬ (ComplexCycleTimeStrategy.calculate qaCfg histAuthoredFoo "K"
        (some "qa")).in_progress_at = none := by
  exact ⟨by decide, by decide, by decide⟩

/-- C9 (corrected), amended claim: provided the QA specialisation does not
yield a start (for instance when `is_qa` is false), a worker filter whose
assignment-interval builder yields no periods makes the complex strategy
proceed with no period restriction when the worker authored an in-progress
or done transition, and return the all-nil CycleTime otherwise. -/
theorem c9_never_involved_amended (cfg : Strategy) (hs : List HistoryEntry)
    (key : String) (w : String) (hw : ¬ w = "")
    (hqa : cfg.is_qa = false ∨
      CycleTimeStrategy.find_qa_start_time cfg hs (some w) = none)
    (hper : ComplexCycleTimeStrategy.get_assignee_periods hs w = []) :
    ComplexCycleTimeStrategy.calculate cfg hs key (some w) =
      (if ComplexCycleTimeStrategy.is_author_of_transitions cfg hs w then
        ComplexCycleTimeStrategy.dispatch cfg hs key (some w) none
      else ⟨key, none, none, none, none, none⟩) := by
  have htruthy : optStrTruthy (some w) = true := by
    simp [optStrTruthy, hw]
  have hscrut : (if cfg.is_qa && optStrTruthy (some w) then
      CycleTimeStrategy.find_qa_start_time cfg hs (some w)
    else none) = none := by
    rcases hqa with h | h
    · simp [h]
    · split
      · exact h
      · rfl
  simp only [ComplexCycleTimeStrategy.calculate, hscrut]
  simp only [htruthy, if_true, Option.getD_some, hper, List.isEmpty_nil]

/-! Lemmas relating the two first-in-progress and first-completion searches,
used by the amended C4 equivalence. -/

theorem norm_str_strip (s : Option String) :
    lowerStr (strip_str s) = norm_str s := rfl

theorem omin_none_right (a : Option Nat) : omin a none = a := by
  cases a <;> rfl

theorem omin_assoc (a b c : Option Nat) :
    omin (omin a b) c = omin a (omin b c) := by
  cases a <;> cases b <;> cases c <;> simp [omin, Nat.min_assoc]

theorem omin_idem (a : Option Nat) (c : Nat) :
    omin (omin a (some c)) (some c) = omin a (some c) := by
  cases a <;> simp [omin, Nat.min_assoc]

theorem omin_step (acc : Option Nat) (c : Nat) :
    (match acc with
     | none => some c
     | some e => if c < e then some c else some e) = omin acc (some c) := by
  cases acc with
  | none => rfl
  | some e =>
    simp only [omin]
    split <;> (congr 1; omega)

theorem minTimes_eq (l : List ComplexCycleTimeStrategy.WorkTransition) :
    ComplexCycleTimeStrategy.minTimes l =
      ComplexCycleTimeStrategy.listMin
        (l.map (fun t => t.timestamp)) := by
  cases l with
  | nil => rfl
  | cons x xs =>
    simp only [ComplexCycleTimeStrategy.minTimes,
      ComplexCycleTimeStrategy.listMin, List.map_cons, List.foldl_map]
    congr 1
    have hfun : (fun (a : Nat)
        (t : ComplexCycleTimeStrategy.WorkTransition) =>
        if t.timestamp < a then t.timestamp else a) =
        fun a t => min a t.timestamp := by
      funext a t
      split <;> omega
    rw [hfun]

theorem leadsScanItems_ne_true (cfg : Strategy) :
    ∀ items : List ChangeItem,
    (∀ i ∈ items, i.field = "status" →
      ¬ norm_str i.toString ∈ ComplexCycleTimeStrategy.non_work_states) →
    ¬ ComplexCycleTimeStrategy.leadsScanItems cfg items = some true := by
  intro items
  induction items with
  | nil => intro _ h; cases h
  | cons i is ih =>
    intro hnw h
    simp only [ComplexCycleTimeStrategy.leadsScanItems] at h
    by_cases hf : i.field = "status"
    · rw [if_pos hf] at h
      split at h
      · next hmem =>
        exact hnw i (List.mem_cons_self _ _) hf hmem
      · split at h
        · simp at h
        · exact ih (fun j hj => hnw j (List.mem_cons_of_mem _ hj)) h
    · rw [if_neg hf] at h
      exact ih (fun j hj => hnw j (List.mem_cons_of_mem _ hj)) h

theorem check_leads_false (cfg : Strategy) :
    ∀ l : List HistoryEntry,
    (∀ h ∈ l, ∀ i ∈ h.items, i.field = "status" →
      ¬ norm_str i.toString ∈ ComplexCycleTimeStrategy.non_work_states) →
    ComplexCycleTimeStrategy.check_leads_to_non_work cfg l = false := by
  intro l
  induction l with
  | nil => intro _; rfl
  | cons h rest ih =>
    intro hnw
    have ihr := ih (fun h' hh' => hnw h' (List.mem_cons_of_mem _ hh'))
    unfold ComplexCycleTimeStrategy.check_leads_to_non_work
    cases hc : h.created with
    | none => exact ihr
    | some c =>
      cases hscan : ComplexCycleTimeStrategy.leadsScanItems cfg h.items with
      | none => exact ihr
      | some b =>
        cases b with
        | true =>
          exact absurd hscan (leadsScanItems_ne_true cfg h.items
            (hnw h (List.mem_cons_self _ _)))
        | false => rfl

theorem workTransitionsOfItems_leads (cfg : Strategy) (c : Nat)
    (rest : List HistoryEntry) :
    ∀ items : List ChangeItem,
    ∀ t ∈ ComplexCycleTimeStrategy.workTransitionsOfItems cfg c rest items,
    t.leads_to_non_work =
      ComplexCycleTimeStrategy.check_leads_to_non_work cfg rest := by
  intro items
  induction items with
  | nil => intro t ht; cases ht
  | cons i is ih =>
    intro t ht
    simp only [ComplexCycleTimeStrategy.workTransitionsOfItems] at ht
    rcases List.mem_append.mp ht with hm | hm
    · split at hm
      · split at hm
        · rcases List.mem_singleton.mp hm with rfl; rfl
        · cases hm
      · cases hm
    · exact ih t hm

theorem collect_leads_false (cfg : Strategy) :
    ∀ hs : List HistoryEntry,
    (∀ h ∈ hs, ∀ i ∈ h.items, i.field = "status" →
      ¬ norm_str i.toString ∈ ComplexCycleTimeStrategy.non_work_states) →
    ∀ t ∈ ComplexCycleTimeStrategy.collect_work_transitions cfg hs,
    t.leads_to_non_work = false := by
  intro hs
  induction hs with
  | nil => intro _ t ht; cases ht
  | cons h rest ih =>
    intro hnw t ht
    have hnwr := fun h' hh' => hnw h' (List.mem_cons_of_mem _ hh')
    simp only [ComplexCycleTimeStrategy.collect_work_transitions] at ht
    rcases List.mem_append.mp ht with hm | hm
    · cases hc : h.created with
      | none => rw [hc] at hm; cases hm
      | some c =>
        rw [hc] at hm
        rw [workTransitionsOfItems_leads cfg c rest h.items t hm]
        exact check_leads_false cfg rest hnwr
    · exact ih hnwr t hm

theorem workTransitionsOfItems_map (cfg : Strategy) (c : Nat)
    (rest : List HistoryEntry) :
    ∀ items : List ChangeItem,
    (∀ i ∈ items, i.field = "status" →
      ¬ norm_str i.toString ∈ ComplexCycleTimeStrategy.non_work_states) →
    (ComplexCycleTimeStrategy.workTransitionsOfItems cfg c
        rest items).map (fun t => t.timestamp) =
      items.foldr (fun i acc =>
        if i.field = "status" ∧ norm_str i.toString ∈ cfg.in_progress_lower
        then c :: acc else acc) [] := by
  intro items
  induction items with
  | nil => intro _; rfl
  | cons i is ih =>
    intro hnw
    have ihr := ih (fun j hj => hnw j (List.mem_cons_of_mem _ hj))
    simp only [ComplexCycleTimeStrategy.workTransitionsOfItems,
      List.foldr_cons, List.map_append, ihr]
    by_cases hf : i.field = "status"
    · by_cases hip : norm_str i.toString ∈ cfg.in_progress_lower
      · have hnotnw := hnw i (List.mem_cons_self _ _) hf
        rw [if_pos hf, if_pos ⟨hip, hnotnw⟩, if_pos ⟨hf, hip⟩]
        rfl
      · have hcond : ¬ (norm_str i.toString ∈ cfg.in_progress_lower ∧
            ¬ norm_str i.toString ∈
              ComplexCycleTimeStrategy.non_work_states) := by
          intro hx; exact hip hx.1
        rw [if_pos hf, if_neg hcond, if_neg (fun hx => hip hx.2)]
        rfl
    · rw [if_neg hf, if_neg (fun hx => hf hx.1)]
      rfl

theorem collect_map (cfg : Strategy) :
    ∀ hs : List HistoryEntry,
    (∀ h ∈ hs, ∀ i ∈ h.items, i.field = "status" →
      ¬ norm_str i.toString ∈ ComplexCycleTimeStrategy.non_work_states) →
    (ComplexCycleTimeStrategy.collect_work_transitions cfg hs).map
        (fun t => t.timestamp) = ipTimes cfg hs := by
  intro hs
  induction hs with
  | nil => intro _; rfl
  | cons h rest ih =>
    intro hnw
    have hnwr := fun h' hh' => hnw h' (List.mem_cons_of_mem _ hh')
    simp only [ComplexCycleTimeStrategy.collect_work_transitions, ipTimes,
      List.map_append, ih hnwr]
    congr 1
    cases hc : h.created with
    | none => rfl
    | some c =>
      exact workTransitionsOfItems_map cfg c rest h.items
        (hnw h (List.mem_cons_self _ _))

/-- Witness for the amended C9: an empty history with worker `x`. -/
theorem c9_never_involved_amended_witness :
    ComplexCycleTimeStrategy.calculate exCfg ([] : List HistoryEntry) "K"
      (some "x") =
      (if ComplexCycleTimeStrategy.is_author_of_transitions exCfg [] "x" then
        ComplexCycleTimeStrategy.dispatch exCfg [] "K" (some "x") none
      else ⟨"K", none, none, none, none, none⟩) :=
  c9_never_involved_amended exCfg [] "K" "x" (by decide) (Or.inl (by decide))
    (by decide)

theorem ffipS_items (cfg : Strategy) (c : Nat) :
    ∀ (items : List ChangeItem) (acc : Option Nat),
    items.foldl (fun earliest i =>
      if i.field = "status" ∧ norm_str i.toString ∈ cfg.in_progress_lower then
        match earliest with
        | none => some c
        | some e => if c < e then some c else some e
      else earliest) acc =
    omin acc (ComplexCycleTimeStrategy.listMin (items.foldr (fun i acc =>
      if i.field = "status" ∧ norm_str i.toString ∈ cfg.in_progress_lower
      then c :: acc else acc) [])) := by
  intro items
  induction items with
  | nil =>
    intro acc
    simp only [List.foldl_nil, List.foldr_nil,
      ComplexCycleTimeStrategy.listMin, omin_none_right]
  | cons i is ih =>
    intro acc
    rw [List.foldl_cons, List.foldr_cons]
    by_cases hc : i.field = "status" ∧ norm_str i.toString ∈
        cfg.in_progress_lower
    · rw [if_pos hc, if_pos hc, omin_step, ih, listMin_cons, ← omin_assoc]
    · rw [if_neg hc, if_neg hc, ih]

theorem ffipS_eq (cfg : Strategy) (hs : List HistoryEntry) :
    SimpleCycleTimeStrategy.find_first_in_progress cfg hs =
      ComplexCycleTimeStrategy.listMin (ipTimes cfg hs) := by
  have main : ∀ (l : List HistoryEntry) (acc : Option Nat),
      l.foldl (fun earliest h =>
        match h.created with
        | none => earliest
        | some c => h.items.foldl (fun earliest i =>
            if i.field = "status" ∧
                norm_str i.toString ∈ cfg.in_progress_lower then
              match earliest with
              | none => some c
              | some e => if c < e then some c else some e
            else earliest) earliest) acc =
      omin acc (ComplexCycleTimeStrategy.listMin (ipTimes cfg l)) := by
    intro l
    induction l with
    | nil =>
      intro acc
      simp only [List.foldl_nil, ipTimes,
        ComplexCycleTimeStrategy.listMin, omin_none_right]
    | cons h rest ih =>
      intro acc
      rw [List.foldl_cons]
      cases hc : h.created with
      | none =>
        simp only [hc, ipTimes, List.nil_append]
        exact ih acc
      | some c =>
        simp only [hc, ipTimes]
        rw [ffipS_items, ih, listMin_append, ← omin_assoc]
  exact main hs none

theorem ffipC_eq (cfg : Strategy) (hs : List HistoryEntry)
    (hnw : ∀ h ∈ hs, ∀ i ∈ h.items, i.field = "status" →
      ¬ norm_str i.toString ∈ ComplexCycleTimeStrategy.non_work_states) :
    ComplexCycleTimeStrategy.find_first_in_progress cfg hs none =
      ComplexCycleTimeStrategy.listMin (ipTimes cfg hs) := by
  have hfilter : (ComplexCycleTimeStrategy.collect_work_transitions cfg
      hs).filter (fun t => !t.leads_to_non_work) =
      ComplexCycleTimeStrategy.collect_work_transitions cfg hs :=
    List.filter_eq_self.mpr (fun t ht => by
      rw [collect_leads_false cfg hs hnw t ht]; rfl)
  simp only [ComplexCycleTimeStrategy.find_first_in_progress, hfilter,
    ite_self]
  rw [minTimes_eq, collect_map cfg hs hnw]
  cases hmin : ComplexCycleTimeStrategy.listMin (ipTimes cfg hs) with
  | none => simp [ComplexCycleTimeStrategy.periodsTruthy]
  | some first => simp [ComplexCycleTimeStrategy.periodsTruthy]

theorem ffd_items (cfg : Strategy) (c : Nat) :
    ∀ (items : List ChangeItem) (acc : Option Nat),
    items.foldl (fun earliest i =>
      if i.field = "status" ∧ norm_str i.toString ∈ cfg.done_lower then
        match earliest with
        | none => some c
        | some e => if c < e then some c else some e
      else earliest) acc =
    (if items.any (fun i => i.field == "status" &&
        decide (lowerStr (strip_str i.toString) ∈ cfg.done_lower)) then
      omin acc (some c)
    else acc) := by
  intro items
  induction items with
  | nil => intro acc; simp
  | cons i is ih =>
    intro acc
    rw [List.foldl_cons, List.any_cons]
    by_cases hcond : i.field = "status" ∧ norm_str i.toString ∈
        cfg.done_lower
    · have hb : (i.field == "status" &&
          decide (lowerStr (strip_str i.toString) ∈ cfg.done_lower)) =
          true := by
        rw [norm_str_strip]
        simp [hcond.1, hcond.2]
      rw [if_pos hcond, omin_step, ih, hb, Bool.true_or, if_pos rfl]
      split
      · exact omin_idem acc c
      · rfl
    · have hb : (i.field == "status" &&
          decide (lowerStr (strip_str i.toString) ∈ cfg.done_lower)) =
          false := by
        rw [norm_str_strip]
        rcases Decidable.not_and_iff_or_not.mp hcond with hx | hx <;>
          simp [hx]
      rw [if_neg hcond, ih, hb, Bool.false_or]

theorem ffd_eq (cfg : Strategy) (t : Nat) (w : Option String)
    (hs : List HistoryEntry) :
    SimpleCycleTimeStrategy.find_first_done cfg hs t =
      ComplexCycleTimeStrategy.listMin
        ((ComplexCycleTimeStrategy.completion_lists cfg t w none hs).1) := by
  have main : ∀ (l : List HistoryEntry) (acc : Option Nat),
      l.foldl (fun earliest h =>
        match h.created with
        | none => earliest
        | some c =>
          if c ≤ t then earliest
          else h.items.foldl (fun earliest i =>
            if i.field = "status" ∧ norm_str i.toString ∈ cfg.done_lower then
              match earliest with
              | none => some c
              | some e => if c < e then some c else some e
            else earliest) earliest) acc =
      omin acc (ComplexCycleTimeStrategy.listMin
        ((ComplexCycleTimeStrategy.completion_lists cfg t w none l).1) ) := by
    intro l
    induction l with
    | nil =>
      intro acc
      simp only [List.foldl_nil, ComplexCycleTimeStrategy.completion_lists,
        ComplexCycleTimeStrategy.listMin, omin_none_right]
    | cons h rest ih =>
      intro acc
      rw [List.foldl_cons]
      simp only [ComplexCycleTimeStrategy.completion_lists]
      cases hc : h.created with
      | none => exact ih acc
      | some c =>
        simp only
        by_cases hle : c ≤ t
        · rw [if_pos hle, if_pos hle]
          exact ih acc
        · rw [if_neg hle, if_neg hle]
          have hin : (!ComplexCycleTimeStrategy.is_in_assignee_period c
              none) = false := rfl
          rw [hin]
          simp only [Bool.false_eq_true, if_false]
          rw [ffd_items, ih, listMin_append]
          by_cases hck : ComplexCycleTimeStrategy.check_status_completion
              cfg h = true
          · rw [if_pos ?_, if_pos hck]
            · rw [listMin_cons]
              simp only [ComplexCycleTimeStrategy.listMin, omin_none_right,
                ← omin_assoc]
            · exact hck
          · rw [if_neg ?_, if_neg hck]
            · simp only [ComplexCycleTimeStrategy.listMin]
              rfl
            · exact hck
  exact main hs none

theorem completion_rs_nil (cfg : Strategy) (t : Nat) (w : Option String) :
    ∀ hs : List HistoryEntry,
    (∀ h ∈ hs, ∀ i ∈ h.items, ¬ i.field = "resolution") →
    (ComplexCycleTimeStrategy.completion_lists cfg t w none hs).2 = [] := by
  intro hs
  induction hs with
  | nil => intro _; rfl
  | cons h rest ih =>
    intro hres
    have ihr := ih (fun h' hh' => hres h' (List.mem_cons_of_mem _ hh'))
    have hcr : ComplexCycleTimeStrategy.check_resolution_completion h w =
        false := by
      unfold ComplexCycleTimeStrategy.check_resolution_completion
      apply List.any_eq_false.mpr
      intro i hi
      have := hres h (List.mem_cons_self _ _) i hi
      simp [this]
    simp only [ComplexCycleTimeStrategy.completion_lists]
    cases hc : h.created with
    | none => exact ihr
    | some c =>
      simp only
      by_cases hle : c ≤ t
      · rw [if_pos hle]; exact ihr
      · rw [if_neg hle]
        have hin : (!ComplexCycleTimeStrategy.is_in_assignee_period c
            none) = false := rfl
        rw [hin]
        simp only [Bool.false_eq_true, if_false, hcr, Bool.false_eq_true,
          if_false, List.nil_append]
        exact ihr

theorem ffc_eq (cfg : Strategy) (hs : List HistoryEntry) (t : Nat)
    (hres : ∀ h ∈ hs, ∀ i ∈ h.items, ¬ i.field = "resolution") :
    ComplexCycleTimeStrategy.find_first_completion cfg hs t none none =
      SimpleCycleTimeStrategy.find_first_done cfg hs t := by
  rw [ffd_eq cfg t none hs]
  simp only [ComplexCycleTimeStrategy.find_first_completion,
    completion_rs_nil cfg t none hs hres]
  cases hm : ComplexCycleTimeStrategy.listMin
      ((ComplexCycleTimeStrategy.completion_lists cfg t none none hs).1) with
  | none => rfl
  | some d => rfl

theorem ftl_eq (cfg : Strategy) (hs : List HistoryEntry) (key : String)
    (hnw : ∀ h ∈ hs, ∀ i ∈ h.items, i.field = "status" →
      ¬ norm_str i.toString ∈ ComplexCycleTimeStrategy.non_work_states)
    (hres : ∀ h ∈ hs, ∀ i ∈ h.items, ¬ i.field = "resolution") :
    ComplexCycleTimeStrategy.calculate_first_to_last cfg hs key none none =
      SimpleCycleTimeStrategy.calculate_first_to_last cfg hs key := by
  simp only [ComplexCycleTimeStrategy.calculate_first_to_last,
    SimpleCycleTimeStrategy.calculate_first_to_last]
  rw [ffipC_eq cfg hs hnw, ← ffipS_eq cfg hs]
  cases hft : SimpleCycleTimeStrategy.find_first_in_progress cfg hs with
  | none => rfl
  | some t =>
    dsimp only
    rw [ffc_eq cfg hs t hres]

/-- C4 (corrected), counterexample: `histOnHold` and `histResolution` have
no transition from a done-set status into an in-progress-set status, no
worker filter is given and the vocabularies are identical, yet the two
strategies return different `seconds` on each of them (on `histOnHold` the
complex strategy discards the first in-progress transition because the next
status change enters the non-work state On Hold; on `histResolution` only
the complex strategy accepts the resolution event as a completion). -/
theorem c4_strategies_differ_without_reopening :
    (CycleTimeStrategy.has_reopening exCfg histOnHold = false ∧
     (∀ h ∈ histOnHold, ∀ i ∈ h.items, i.field = "status" →
       ¬ (norm_str i.fromString ∈ exCfg.done_lower ∧
          norm_str i.toString ∈ exCfg.in_progress_lower)) ∧
     (SimpleCycleTimeStrategy.calculate exCfg histOnHold "K"
        none).seconds ≠
       (ComplexCycleTimeStrategy.calculate exCfg histOnHold "K"
         none).seconds) ∧
    (CycleTimeStrategy.has_reopening exCfg histResolution = false ∧
     (∀ h ∈ histResolution, ∀ i ∈ h.items, i.field = "status" →
       ¬ (norm_str i.fromString ∈ exCfg.done_lower ∧
          norm_str i.toString ∈ exCfg.in_progress_lower)) ∧
     (SimpleCycleTimeStrategy.calculate exCfg histResolution "K"
        none).seconds ≠
       (ComplexCycleTimeStrategy.calculate exCfg histResolution "K"
         none).seconds) := by
  exact ⟨⟨by decide, by decide, by decide⟩, ⟨by decide, by decide, by decide⟩⟩

/-- C4 (corrected), amended claim: for histories with no reopening, no
status event targeting the hard-coded non-work set, and no resolution-field
items, with no worker filter and identical vocabularies, the two strategies
return identical `seconds`. -/
theorem c4_strategy_equivalence_amended (cfg : Strategy)
    (hs : List HistoryEntry) (key : String)
    (hnw : ∀ h ∈ hs, ∀ i ∈ h.items, i.field = "status" →
      ¬ norm_str i.toString ∈ ComplexCycleTimeStrategy.non_work_states)
    (hres : ∀ h ∈ hs, ∀ i ∈ h.items, ¬ i.field = "resolution")
    (hreopen : CycleTimeStrategy.has_reopening cfg hs = false) :
    (SimpleCycleTimeStrategy.calculate cfg hs key none).seconds =
      (ComplexCycleTimeStrategy.calculate cfg hs key none).seconds := by
  have hq : (cfg.is_qa && optStrTruthy none) = false := by
    simp [optStrTruthy]
  simp only [SimpleCycleTimeStrategy.calculate,
    ComplexCycleTimeStrategy.calculate, hq, Bool.false_eq_true, if_false]
  have htr : optStrTruthy none = false := rfl
  simp only [htr, Bool.false_eq_true, if_false,
    ComplexCycleTimeStrategy.dispatch, hreopen]
  rw [ftl_eq cfg hs key hnw hres]

/-- Witness for the amended C4 on the concrete linear history. -/
theorem c4_strategy_equivalence_amended_witness :
    (SimpleCycleTimeStrategy.calculate exCfg histLinear "K" none).seconds =
      (ComplexCycleTimeStrategy.calculate exCfg histLinear "K"
        none).seconds :=
  c4_strategy_equivalence_amended exCfg histLinear "K" (by decide)
    (by decide) (by decide)

end ATP
